import Mathlib

/-!
# OpenGLProject1: the frame loop of `opengl-1/Source.cpp`

A shallow embedding of the callbacks of `Source.cpp` (`initialize`, `resize`,
`timer`, `draw`, `keyPressed`, `specialKeyPressed`, `main`) as functions on an
explicit record of the program's globals.  Calls into GLUT / GL become entries
of an effect trace; undefined behaviour and fatal faults become `Except` errors.

`float` is IEEE-754 binary32 with round-to-nearest-even, every operation
rounded to binary32 (`FLT_EVAL_METHOD` 0), modelled on exact rationals:
`F32.ofRat` rounds an exact result to the nearest binary32 value.  `int` is
32 bits wide.
-/

namespace OpenGLProject1

/-! ## binary32 arithmetic -/

/-- Nearest natural number to a non-negative rational, ties to even. -/
def roundHalfEven (x : ℚ) : ℕ :=
  if x - (⌊x⌋₊ : ℚ) < 1 / 2 then ⌊x⌋₊
  else if 1 / 2 < x - (⌊x⌋₊ : ℚ) then ⌊x⌋₊ + 1
  else if ⌊x⌋₊ % 2 = 0 then ⌊x⌋₊ else ⌊x⌋₊ + 1

/-- Exponent of the binade of a positive rational, `⌊log₂ x⌋`, held at the
smallest normal exponent `-126` of binary32 (below it values are subnormal). -/
def expo (x : ℚ) : ℤ := max (Int.log 2 x) (-126)

/-- Spacing of binary32 values in the binade of `x`: 24 significant bits. -/
def ulp (x : ℚ) : ℚ := (2 : ℚ) ^ (expo x - 23)

/-- Round-to-nearest-even of a non-negative rational onto the binary32 grid
(exponent unbounded above; overflow is decided in `F32.ofRat`). -/
def roundPos (x : ℚ) : ℚ := (roundHalfEven (x / ulp x) : ℚ) * ulp x

/-- Round-to-nearest-even of a rational onto the binary32 grid. -/
def rnd (x : ℚ) : ℚ := if 0 ≤ x then roundPos x else -roundPos (-x)

/-- Values of a C++ `float`.  Signed zeros are identified: the program never
divides by a zero that could be negative. -/
inductive F32 where
  | fin (q : ℚ)
  | pinf
  | ninf
  | nan
  deriving DecidableEq, Repr

namespace F32

/-- Rounding of an exact result into binary32; magnitudes that round to
`2^128` or more overflow to an infinity. -/
def ofRat (x : ℚ) : F32 :=
  if (2 : ℚ) ^ (128 : ℕ) ≤ rnd x then pinf
  else if rnd x ≤ -(2 : ℚ) ^ (128 : ℕ) then ninf
  else fin (rnd x)

/-- Conversion of an integer to `float`. -/
def ofInt (n : ℤ) : F32 := ofRat n

/-- Addition of `float`s. -/
def add : F32 → F32 → F32
  | nan, _ => nan
  | _, nan => nan
  | pinf, ninf => nan
  | ninf, pinf => nan
  | pinf, _ => pinf
  | _, pinf => pinf
  | ninf, _ => ninf
  | _, ninf => ninf
  | fin a, fin b => ofRat (a + b)

/-- Subtraction of `float`s. -/
def sub : F32 → F32 → F32
  | nan, _ => nan
  | _, nan => nan
  | pinf, pinf => nan
  | ninf, ninf => nan
  | pinf, _ => pinf
  | _, ninf => pinf
  | ninf, _ => ninf
  | _, pinf => ninf
  | fin a, fin b => ofRat (a - b)

/-- Sign of a non-NaN value: `1`, `0` or `-1`. -/
def sign : F32 → ℤ
  | fin q => if 0 < q then 1 else if q < 0 then -1 else 0
  | pinf => 1
  | ninf => -1
  | nan => 0

/-- An infinity of the given sign, NaN for sign `0`. -/
def infOfSign (s : ℤ) : F32 := if 0 < s then pinf else if s < 0 then ninf else nan

/-- Multiplication of `float`s. -/
def mul : F32 → F32 → F32
  | nan, _ => nan
  | _, nan => nan
  | fin a, fin b => ofRat (a * b)
  | a, b => infOfSign (sign a * sign b)

/-- Division of `float`s; a zero divisor is `+0`. -/
def div : F32 → F32 → F32
  | nan, _ => nan
  | _, nan => nan
  | fin a, fin b => if b = 0 then infOfSign (sign (fin a)) else ofRat (a / b)
  | fin _, _ => fin 0
  | pinf, fin b => if 0 ≤ b then pinf else ninf
  | ninf, fin b => if 0 ≤ b then ninf else pinf
  | _, _ => nan

/-- The comparison `a < b` of `float`s (false when either is NaN). -/
def lt : F32 → F32 → Bool
  | fin a, fin b => decide (a < b)
  | ninf, fin _ => true
  | ninf, pinf => true
  | fin _, pinf => true
  | _, _ => false

/-- The function `std::max(a, b)`: `(a < b) ? b : a`. -/
def max (a b : F32) : F32 := if lt a b then b else a

/-- Conversion `(unsigned int) x`: truncation toward zero; undefined when the
truncated value is not a 32-bit unsigned integer. -/
def toUInt : F32 → Option ℕ
  | fin q => if -1 < q ∧ q < (2 : ℚ) ^ (32 : ℕ) then some ⌊q⌋.toNat else none
  | _ => none

end F32

/-! ## Program state, faults and effects -/

/-- A pixel, `glm::vec4`: four `float` components. -/
structure Vec4 where
  x : F32
  y : F32
  z : F32
  w : F32
  deriving DecidableEq, Repr

/-- Ways in which a callback can fail to complete. -/
inductive Fault where
  /-- Overflow of a signed `int` multiplication. -/
  | signedOverflow
  /-- Access `g_frame[i]` while `g_frame` is `nullptr`. -/
  | nullFrame
  /-- Access `g_frame[i]` with `i` outside the allocated array. -/
  | outOfBounds
  /-- Array allocation with a negative element count. -/
  | badAlloc
  /-- Conversion of a `float` out of the range of `unsigned int`. -/
  | floatCast
  deriving DecidableEq, Repr

/-- Lines written to standard output. -/
inductive Msg where
  | initializingWindow
  | assigningCallbacks
  | startingApplication
  | destroyingWindow (win : ℤ)
  | unhandledKey (key : ℕ)
  | unhandledSpecialKey (key : ℤ)
  | fps (v : F32)
  deriving DecidableEq, Repr

/-- Calls the program makes into GLUT, GL and the C runtime. -/
inductive Effect where
  | glutInit
  | initDisplayMode
  | initWindowPosition (x y : ℤ)
  | initWindowSize (w h : ℤ)
  | createWindow
  | clearColor (r g b a : F32)
  | reshapeFunc
  | displayFunc
  | keyboardFunc
  | specialFunc
  | mainLoop
  | viewport (x y w h : ℤ)
  | postRedisplay
  | timerFunc (millis : ℕ)
  | exit (code : ℤ)
  | drawPixels (w h : ℤ) (data : Option (List Vec4))
  | swapBuffers
  | destroyWindow (win : ℤ)
  | print (m : Msg)
  deriving DecidableEq, Repr

/-- The global variables of `Source.cpp`.  `g_frame = none` is `nullptr`;
`g_frameTime` is a clock reading in ticks. -/
structure State where
  g_width : ℤ
  g_height : ℤ
  g_window : ℤ
  g_frame : Option (List Vec4)
  g_frameRate : F32
  g_frameTime : ℤ
  g_delay : F32
  g_framesPerSecond : F32
  deriving DecidableEq, Repr

/-- Constants of the headers the program is compiled against. -/
structure Platform where
  RAND_MAX : ℤ
  GLUT_KEY_LEFT : ℤ
  GLUT_KEY_RIGHT : ℤ

/-- What one call of `draw` receives from its environment: the outputs of the
successive `rand()` calls, which of the three calls made for a pixel supplies
each of its components (the order of evaluation of the arguments of the `vec4`
constructor is the compiler's choice), the clock reading and the elapsed time
since `g_frameTime` as the `float` number of seconds. -/
structure DrawEnv where
  rand : ℕ → ℤ
  argOrder : Fin 3 → Fin 3
  now : ℤ
  elapsed : F32

/-- Target frame rate, `const unsigned int FPS = 60`. -/
def FPS : ℕ := 60

/-- Values of the globals after static initialisation, `t0` being the clock
reading taken for `g_frameTime`. -/
def initialState (t0 : ℤ) : State :=
  { g_width := 1360, g_height := 768, g_window := 0, g_frame := none,
    g_frameRate := F32.fin 0, g_frameTime := t0, g_delay := F32.fin 0,
    g_framesPerSecond := F32.fin 0 }

/-- Number of elements of the array `g_frame` owns (`0` for `nullptr`). -/
def frameLength (s : State) : ℕ :=
  match s.g_frame with
  | none => 0
  | some buf => buf.length

/-- Product of two `int`s; overflow is undefined behaviour. -/
def imul (a b : ℤ) : Except Fault ℤ :=
  if -(2 : ℤ) ^ (31 : ℕ) ≤ a * b ∧ a * b < (2 : ℤ) ^ (31 : ℕ) then .ok (a * b)
  else .error .signedOverflow

/-- The value-initialised pixel of a freshly allocated frame. -/
def zeroPixel : Vec4 := ⟨F32.fin 0, F32.fin 0, F32.fin 0, F32.fin 0⟩

/-- The allocation `std::make_unique<glm::vec4[]>(n)` for an `int` count: a
negative count becomes an impossible size; otherwise `n` zero-initialised
pixels (the heap is taken to be large enough). -/
def makeFrame (n : ℤ) : Except Fault (List Vec4) :=
  if n < 0 then .error .badAlloc
  else .ok (List.replicate n.toNat zeroPixel)

/-- The assignment `g_frame[i] = v`. -/
def store (frame : Option (List Vec4)) (i : ℕ) (v : Vec4) :
    Except Fault (Option (List Vec4)) :=
  match frame with
  | none => .error .nullFrame
  | some buf => if i < buf.length then .ok (some (buf.set i v)) else .error .outOfBounds

/-- The loop `for (int i = 0; i < n; ++i) g_frame[i] = gen i`. -/
def fillLoop (gen : ℕ → Vec4) (n : ℕ) (frame : Option (List Vec4)) :
    Except Fault (Option (List Vec4)) :=
  (List.range n).foldlM (fun fr i => store fr i (gen i)) frame

/-! ## The callbacks -/

/-- The function `initialize()` of the source (the bare name is reserved in Lean). -/
def initializeGL (s : State) : Except Fault (State × List Effect) := do
  let n ← imul s.g_width s.g_height
  let buf ← makeFrame n
  pure ({ s with g_frame := some buf },
        [.clearColor (F32.fin 0) (F32.fin 0) (F32.fin 0) (F32.fin 1)])

/-- The callback `resize(_w, _h)`: it assigns the dimensions and sets the viewport. -/
def resize (_w _h : ℤ) (s : State) : State × List Effect :=
  ({ s with g_width := _w, g_height := _h }, [.viewport 0 0 _w _h])

/-- The delay `std::max(0.f, 1.f / FPS - g_frameRate)` of `timer`. -/
def frameDelay (frameRate : F32) : F32 :=
  F32.max (F32.fin 0) (F32.sub (F32.div (F32.fin 1) (F32.ofInt FPS)) frameRate)

/-- The callback `timer(_v)`: with a live window it requests a redraw, stores the
delay and schedules itself after that delay in whole milliseconds; without one
it calls `exit(0)`. -/
def timer (s : State) : Except Fault (State × List Effect) :=
  if s.g_window ≠ 0 then
    match F32.toUInt (F32.mul (F32.fin 1000) (frameDelay s.g_frameRate)) with
    | some millis =>
        .ok ({ s with g_delay := frameDelay s.g_frameRate },
             [.postRedisplay, .timerFunc millis])
    | none => .error .floatCast
  else .ok (s, [.exit 0])

/-- The colour written by the clear pass, `vec4(0.f, 0.4f, 0.f, 0.f)`. -/
def clearColour : Vec4 := ⟨F32.fin 0, F32.ofRat (2 / 5), F32.fin 0, F32.fin 0⟩

/-- The colour written to pixel `i` by the second pass,
`vec4(float(rand()) / RAND_MAX, float(rand()) / RAND_MAX, float(rand()) / RAND_MAX, 1.f)`. -/
def noise (p : Platform) (env : DrawEnv) (i : ℕ) : Vec4 :=
  ⟨F32.div (F32.ofInt (env.rand (3 * i + (env.argOrder 0).val))) (F32.ofInt p.RAND_MAX),
   F32.div (F32.ofInt (env.rand (3 * i + (env.argOrder 1).val))) (F32.ofInt p.RAND_MAX),
   F32.div (F32.ofInt (env.rand (3 * i + (env.argOrder 2).val))) (F32.ofInt p.RAND_MAX),
   F32.fin 1⟩

/-- The callback `draw()`: the clear pass, the noise pass, the present and swap,
then the frame time and the reported frames per second. -/
def draw (p : Platform) (env : DrawEnv) (s : State) : Except Fault (State × List Effect) := do
  let n ← imul s.g_width s.g_height
  let cleared ← fillLoop (fun _ => clearColour) n.toNat s.g_frame
  let filled ← fillLoop (noise p env) n.toNat cleared
  let fps := F32.div (F32.fin 1) (F32.add s.g_delay env.elapsed)
  pure ({ s with g_frame := filled, g_frameRate := env.elapsed, g_frameTime := env.now,
                 g_framesPerSecond := fps },
        [.drawPixels s.g_width s.g_height filled, .swapBuffers, .print (.fps fps)])

/-- The callback `keyPressed(_key, _x, _y)`. -/
def keyPressed (_key : ℕ) (_x _y : ℤ) (s : State) : State × List Effect :=
  if _key = 27 then
    ({ s with g_window := 0 }, [.print (.destroyingWindow s.g_window), .destroyWindow s.g_window])
  else (s, [.print (.unhandledKey _key)])

/-- The callback `specialKeyPressed(_key, _x, _y)`. -/
def specialKeyPressed (p : Platform) (_key : ℤ) (_x _y : ℤ) (s : State) : State × List Effect :=
  if _key = p.GLUT_KEY_LEFT ∨ _key = p.GLUT_KEY_RIGHT then (s, [])
  else (s, [.print (.unhandledSpecialKey _key)])

/-- The function `main` up to the call of `glutMainLoop`: `win` is the identifier returned
by `glutCreateWindow`. -/
def main (win : ℤ) (s : State) : Except Fault (State × List Effect) := do
  let (s1, effs) ← initializeGL { s with g_window := win }
  pure (s1,
    [.print .initializingWindow, .glutInit, .initDisplayMode, .initWindowPosition 50 100,
      .initWindowSize s.g_width s.g_height, .createWindow] ++ effs ++
    [.print .assigningCallbacks, .reshapeFunc, .displayFunc, .keyboardFunc, .specialFunc,
      .timerFunc (1000 / FPS), .print .startingApplication, .mainLoop])

/-! ## The event loop -/

/-- Callbacks GLUT delivers, one at a time. -/
inductive Event where
  | resize (w h : ℤ)
  | timer
  | draw (env : DrawEnv)
  | key (key : ℕ) (x y : ℤ)
  | special (key : ℤ) (x y : ℤ)

/-- Delivery of one event to its callback. -/
def dispatch (p : Platform) (s : State) : Event → Except Fault (State × List Effect)
  | .resize w h => .ok (resize w h s)
  | .timer => timer s
  | .draw env => draw p env s
  | .key k x y => .ok (keyPressed k x y s)
  | .special k x y => .ok (specialKeyPressed p k x y s)

/-- Delivery of a sequence of events, collecting the effects. -/
def run (p : Platform) : State → List Event → Except Fault (State × List Effect)
  | s, [] => .ok (s, [])
  | s, e :: es => do
    let (s1, effs1) ← dispatch p s e
    let (s2, effs2) ← run p s1 es
    pure (s2, effs1 ++ effs2)

/-! ## Observations used in the statements -/

/-- The globals when `main` enters `glutMainLoop`: the window exists and
`initialize()` has allocated `1360 * 768` pixels. -/
def startState (win t0 : ℤ) : State :=
  { initialState t0 with g_window := win, g_frame := some (List.replicate 1044480 zeroPixel) }

/-- The pixel stored at index `i` of the frame, when there is one. -/
def pixelAt (s : State) (i : ℕ) : Option Vec4 :=
  match s.g_frame with
  | none => none
  | some buf => buf[i]?

/-- Requests to close a window (`glutDestroyWindow`). -/
def Effect.isCloseRequest : Effect → Bool
  | .destroyWindow _ => true
  | _ => false

/-- Requests to end the process (`exit`). -/
def Effect.isExitRequest : Effect → Bool
  | .exit _ => true
  | _ => false

/-- Requests for a redraw (`glutPostRedisplay`). -/
def Effect.isRedrawRequest : Effect → Bool
  | .postRedisplay => true
  | _ => false

/-- Requests for a later timer tick (`glutTimerFunc`). -/
def Effect.isTimerRequest : Effect → Bool
  | .timerFunc _ => true
  | _ => false

/-- Header constants of a common build: `RAND_MAX` of the Microsoft C runtime,
arrow-key codes of `freeglut_std.h`. -/
def samplePlatform : Platform :=
  { RAND_MAX := 32767, GLUT_KEY_LEFT := 100, GLUT_KEY_RIGHT := 102 }

/-- A `draw` environment whose generator returns `0` throughout, with the
arguments evaluated left to right. -/
def sampleEnv (now : ℤ) (elapsed : F32) : DrawEnv :=
  { rand := fun _ => 0, argOrder := id, now := now, elapsed := elapsed }

/-- The rationals that are binary32 values: rounding leaves them unchanged. -/
def F32.Representable (q : ℚ) : Prop := F32.ofRat q = F32.fin q

instance (q : ℚ) : Decidable (F32.Representable q) :=
  inferInstanceAs (Decidable (F32.ofRat q = F32.fin q))

/-- The `float` value of `1.f / FPS`, that is `1/60` rounded to binary32
(`0x3C888889`, about `0.016666668`). -/
def frameBudget : ℚ := 8947849 / 536870912

/-! ## Rounding lemmas -/

theorem floor_le_roundHalfEven (x : ℚ) : ⌊x⌋₊ ≤ roundHalfEven x := by
  unfold roundHalfEven
  split_ifs <;> omega

theorem roundHalfEven_le_floor_succ (x : ℚ) : roundHalfEven x ≤ ⌊x⌋₊ + 1 := by
  unfold roundHalfEven
  split_ifs <;> omega

theorem roundHalfEven_natCast (n : ℕ) : roundHalfEven (n : ℚ) = n := by
  unfold roundHalfEven
  simp

theorem roundHalfEven_le_of_le {x : ℚ} {N : ℕ} (hx : 0 ≤ x) (h : x ≤ N) :
    roundHalfEven x ≤ N := by
  have hf := Nat.floor_le hx
  rcases eq_or_lt_of_le h with h | h
  · rw [h, roundHalfEven_natCast]
  · have h1 : (⌊x⌋₊ : ℚ) < N := lt_of_le_of_lt hf h
    have h2 : ⌊x⌋₊ < N := by exact_mod_cast h1
    have := roundHalfEven_le_floor_succ x
    omega

theorem le_roundHalfEven_of_le {x : ℚ} {N : ℕ} (h : (N : ℚ) ≤ x) :
    N ≤ roundHalfEven x :=
  le_trans (Nat.le_floor h) (floor_le_roundHalfEven x)

theorem roundHalfEven_mono {x y : ℚ} (h : x ≤ y) :
    roundHalfEven x ≤ roundHalfEven y := by
  rcases Nat.lt_or_eq_of_le (Nat.floor_mono h) with hlt | heq
  · have := roundHalfEven_le_floor_succ x
    have := floor_le_roundHalfEven y
    omega
  · unfold roundHalfEven
    rw [← heq]
    split_ifs <;> first | omega | (exfalso; linarith)

theorem roundHalfEven_eq_of_abs_lt {x : ℚ} {n : ℕ} (hx : 0 ≤ x) (h : |x - n| < 1 / 2) :
    roundHalfEven x = n := by
  rw [abs_lt] at h
  have hf := Nat.floor_le hx
  have hf2 := Nat.lt_floor_add_one x
  unfold roundHalfEven
  split_ifs with h1 h2
  · have a1 : (n : ℚ) < (⌊x⌋₊ : ℚ) + 1 := by linarith
    have a2 : (⌊x⌋₊ : ℚ) < (n : ℚ) + 1 := by linarith
    have b1 : n < ⌊x⌋₊ + 1 := by exact_mod_cast a1
    have b2 : ⌊x⌋₊ < n + 1 := by exact_mod_cast a2
    omega
  · have a1 : (n : ℚ) < (⌊x⌋₊ : ℚ) + 2 := by linarith
    have a2 : (⌊x⌋₊ : ℚ) < (n : ℚ) := by linarith
    have b1 : n < ⌊x⌋₊ + 2 := by exact_mod_cast a1
    have b2 : ⌊x⌋₊ < n := by exact_mod_cast a2
    omega
  · exfalso
    have e : x = ⌊x⌋₊ + 1 / 2 := by linarith
    have a1 : (n : ℚ) < (⌊x⌋₊ : ℚ) + 1 := by linarith
    have a2 : (⌊x⌋₊ : ℚ) < (n : ℚ) := by linarith
    have b1 : n < ⌊x⌋₊ + 1 := by exact_mod_cast a1
    have b2 : ⌊x⌋₊ < n := by exact_mod_cast a2
    omega
  · exfalso
    have a1 : (n : ℚ) < (⌊x⌋₊ : ℚ) + 1 := by linarith
    have a2 : (⌊x⌋₊ : ℚ) < (n : ℚ) := by linarith
    have b1 : n < ⌊x⌋₊ + 1 := by exact_mod_cast a1
    have b2 : ⌊x⌋₊ < n := by exact_mod_cast a2
    omega

theorem abs_roundHalfEven_sub_le {t : ℚ} (ht : 0 ≤ t) : |(roundHalfEven t : ℚ) - t| ≤ 1 / 2 := by
  have hf := Nat.floor_le ht
  have hf2 := Nat.lt_floor_add_one t
  rw [abs_le]
  unfold roundHalfEven
  split_ifs <;> push_cast <;> constructor <;> linarith

theorem ulp_pos (x : ℚ) : 0 < ulp x := by
  unfold ulp
  positivity

theorem expo_mono {x y : ℚ} (hx : 0 < x) (h : x ≤ y) : expo x ≤ expo y :=
  max_le_max (Int.log_mono_right hx h) le_rfl

theorem lt_zpow_expo_succ (x : ℚ) : x < (2 : ℚ) ^ (expo x + 1) := by
  have h := Int.lt_zpow_succ_log_self (b := 2) (by norm_num) x
  refine lt_of_lt_of_le h ?_
  have : Int.log 2 x + 1 ≤ expo x + 1 := by
    unfold expo
    have := le_max_left (Int.log 2 x) (-126)
    omega
  exact_mod_cast zpow_le_zpow_right₀ (by norm_num : (1 : ℚ) ≤ 2) this

theorem expo_eq {x : ℚ} {e : ℤ} (he : -126 ≤ e) (hlo : (2 : ℚ) ^ e ≤ x)
    (hhi : x < (2 : ℚ) ^ (e + 1)) : expo x = e := by
  have hx : 0 < x := lt_of_lt_of_le (by positivity) hlo
  have h1 : e ≤ Int.log 2 x := by
    rw [← Int.zpow_le_iff_le_log (by norm_num) hx]
    exact_mod_cast hlo
  have h2 : Int.log 2 x < e + 1 := by
    rw [← Int.lt_zpow_iff_log_lt (by norm_num) hx]
    exact_mod_cast hhi
  unfold expo
  rw [max_eq_left (by omega)]
  omega

theorem ulp_le_of_lt {x : ℚ} {k : ℤ} (hx : 0 < x) (hk : -126 < k) (h : x < (2 : ℚ) ^ k) :
    ulp x ≤ (2 : ℚ) ^ (k - 24) := by
  have h1 : Int.log 2 x < k := by
    rw [← Int.lt_zpow_iff_log_lt (by norm_num) hx]
    exact_mod_cast h
  have h2 : expo x ≤ k - 1 := by
    unfold expo
    exact max_le (by omega) (by omega)
  unfold ulp
  exact zpow_le_zpow_right₀ (by norm_num) (by omega)

theorem roundPos_nonneg (x : ℚ) : 0 ≤ roundPos x := by
  unfold roundPos
  have := ulp_pos x
  positivity

theorem roundPos_zero : roundPos 0 = 0 := by
  unfold roundPos
  simp [roundHalfEven]

/-- The rounded value stays inside the closed binade of its argument. -/
theorem roundPos_le_zpow (x : ℚ) (hx : 0 ≤ x) : roundPos x ≤ (2 : ℚ) ^ (expo x + 1) := by
  unfold roundPos
  have hu := ulp_pos x
  have h1 : x / ulp x ≤ ((2 ^ 24 : ℕ) : ℚ) := by
    rw [div_le_iff₀ hu]
    have h2 : ((2 ^ 24 : ℕ) : ℚ) * ulp x = (2 : ℚ) ^ (expo x + 1) := by
      unfold ulp
      rw [show expo x + 1 = 24 + (expo x - 23) by ring, zpow_add₀ (by norm_num)]
      norm_num
    rw [h2]
    exact le_of_lt (lt_zpow_expo_succ x)
  have h3 := roundHalfEven_le_of_le (div_nonneg hx hu.le) h1
  have h4 : (roundHalfEven (x / ulp x) : ℚ) ≤ ((2 ^ 24 : ℕ) : ℚ) := by exact_mod_cast h3
  calc (roundHalfEven (x / ulp x) : ℚ) * ulp x ≤ ((2 ^ 24 : ℕ) : ℚ) * ulp x :=
        mul_le_mul_of_nonneg_right h4 hu.le
    _ = (2 : ℚ) ^ (expo x + 1) := by
      unfold ulp
      rw [show expo x + 1 = 24 + (expo x - 23) by ring, zpow_add₀ (by norm_num)]
      norm_num

theorem zpow_le_roundPos {x : ℚ} (hx : 0 < x) (he : -126 < expo x) :
    (2 : ℚ) ^ (expo x) ≤ roundPos x := by
  have hlog : expo x = Int.log 2 x := by
    unfold expo at he ⊢
    rcases max_cases (Int.log 2 x) (-126) with ⟨h, _⟩ | ⟨h, _⟩
    · exact h
    · omega
  have hlo : (2 : ℚ) ^ (expo x) ≤ x := by
    rw [hlog]
    exact_mod_cast Int.zpow_log_le_self (b := 2) (by norm_num) hx
  unfold roundPos
  have hu := ulp_pos x
  have h2 : ((2 ^ 23 : ℕ) : ℚ) * ulp x = (2 : ℚ) ^ (expo x) := by
    unfold ulp
    rw [show expo x = 23 + (expo x - 23) by ring, zpow_add₀ (by norm_num)]
    norm_num
  have h1 : ((2 ^ 23 : ℕ) : ℚ) ≤ x / ulp x := by
    rw [le_div_iff₀ hu, h2]
    exact hlo
  have h3 := le_roundHalfEven_of_le h1
  have h4 : ((2 ^ 23 : ℕ) : ℚ) ≤ (roundHalfEven (x / ulp x) : ℚ) := by exact_mod_cast h3
  calc (2 : ℚ) ^ (expo x) = ((2 ^ 23 : ℕ) : ℚ) * ulp x := h2.symm
    _ ≤ (roundHalfEven (x / ulp x) : ℚ) * ulp x := mul_le_mul_of_nonneg_right h4 hu.le

theorem roundPos_mono {x y : ℚ} (hx : 0 ≤ x) (h : x ≤ y) : roundPos x ≤ roundPos y := by
  rcases eq_or_lt_of_le hx with h0 | hpos
  · rw [← h0, roundPos_zero]
    exact roundPos_nonneg y
  rcases eq_or_lt_of_le (expo_mono hpos h) with he | he
  · unfold roundPos ulp
    rw [he]
    have hu : (0 : ℚ) < (2 : ℚ) ^ (expo y - 23) := by positivity
    have h1 : x / (2 : ℚ) ^ (expo y - 23) ≤ y / (2 : ℚ) ^ (expo y - 23) :=
      div_le_div_of_nonneg_right h hu.le
    have h2 := roundHalfEven_mono h1
    have h3 : (roundHalfEven (x / (2 : ℚ) ^ (expo y - 23)) : ℚ)
        ≤ (roundHalfEven (y / (2 : ℚ) ^ (expo y - 23)) : ℚ) := by exact_mod_cast h2
    exact mul_le_mul_of_nonneg_right h3 hu.le
  · have hy : 0 < y := lt_of_lt_of_le hpos h
    have hey : -126 < expo y := by
      have : -126 ≤ expo x := le_max_right _ _
      omega
    calc roundPos x ≤ (2 : ℚ) ^ (expo x + 1) := roundPos_le_zpow x hx
      _ ≤ (2 : ℚ) ^ (expo y) := zpow_le_zpow_right₀ (by norm_num) (by omega)
      _ ≤ roundPos y := zpow_le_roundPos hy hey

theorem rnd_zero : rnd 0 = 0 := by
  simp [rnd, roundPos_zero]

theorem rnd_nonneg {x : ℚ} (hx : 0 ≤ x) : 0 ≤ rnd x := by
  unfold rnd
  rw [if_pos hx]
  exact roundPos_nonneg x

theorem rnd_nonpos {x : ℚ} (hx : x ≤ 0) : rnd x ≤ 0 := by
  rcases eq_or_lt_of_le hx with h | h
  · rw [h, rnd_zero]
  · unfold rnd
    rw [if_neg (not_le.mpr h)]
    have := roundPos_nonneg (-x)
    linarith

theorem rnd_mono {x y : ℚ} (h : x ≤ y) : rnd x ≤ rnd y := by
  by_cases hx : 0 ≤ x
  · have hy : 0 ≤ y := le_trans hx h
    unfold rnd
    rw [if_pos hx, if_pos hy]
    exact roundPos_mono hx h
  · by_cases hy : 0 ≤ y
    · exact le_trans (rnd_nonpos (le_of_lt (not_le.mp hx))) (rnd_nonneg hy)
    · unfold rnd
      rw [if_neg hx, if_neg hy]
      have := roundPos_mono (x := -y) (y := -x) (by linarith) (by linarith)
      linarith

/-- Evaluation of the rounding inside a normal binade: `x` lies in `[2^e, 2^(e+1))` and
`n` is the multiple of the spacing nearest to it. -/
theorem rnd_eq_of_near {x : ℚ} (e : ℤ) (n : ℕ) (he : -126 ≤ e) (hlo : (2 : ℚ) ^ e ≤ x)
    (hhi : x < (2 : ℚ) ^ (e + 1)) (hn : |x / (2 : ℚ) ^ (e - 23) - n| < 1 / 2) :
    rnd x = n * (2 : ℚ) ^ (e - 23) := by
  have hx : 0 < x := lt_of_lt_of_le (by positivity) hlo
  unfold rnd
  rw [if_pos hx.le]
  unfold roundPos ulp
  rw [expo_eq he hlo hhi]
  have hu : (0 : ℚ) < (2 : ℚ) ^ (e - 23) := by positivity
  rw [roundHalfEven_eq_of_abs_lt (div_nonneg hx.le hu.le) hn]

/-- Rounding moves a non-negative value by at most half the spacing of its binade. -/
theorem abs_rnd_sub_le {x : ℚ} (hx : 0 ≤ x) : |rnd x - x| ≤ ulp x / 2 := by
  have hu := ulp_pos x
  unfold rnd
  rw [if_pos hx]
  unfold roundPos
  have h := abs_roundHalfEven_sub_le (div_nonneg hx hu.le)
  have e : (roundHalfEven (x / ulp x) : ℚ) * ulp x - x
      = ((roundHalfEven (x / ulp x) : ℚ) - x / ulp x) * ulp x := by
    field_simp
  rw [e, abs_mul, abs_of_pos hu]
  calc |(roundHalfEven (x / ulp x) : ℚ) - x / ulp x| * ulp x ≤ 1 / 2 * ulp x :=
        mul_le_mul_of_nonneg_right h hu.le
    _ = ulp x / 2 := by ring

theorem rnd_one : rnd 1 = 1 := by
  rw [rnd_eq_of_near 0 (2 ^ 23) (by norm_num) (by norm_num) (by norm_num)
    (by rw [abs_lt]; constructor <;> norm_num)]
  norm_num

theorem rnd_two_pow_31 : rnd 2147483648 = 2147483648 := by
  rw [rnd_eq_of_near 31 8388608 (by norm_num) (by norm_num) (by norm_num)
    (by rw [abs_lt]; constructor <;> norm_num)]
  norm_num

theorem rnd_one_twentieth : rnd (1 / 20) = 13421773 / 268435456 := by
  rw [rnd_eq_of_near (-5) 13421773 (by norm_num) (by norm_num) (by norm_num)
    (by rw [abs_lt]; constructor <;> norm_num)]
  norm_num

theorem rnd_one_div_sixty : rnd (1 / 60) = frameBudget := by
  unfold frameBudget
  rw [rnd_eq_of_near (-6) 8947849 (by norm_num) (by norm_num) (by norm_num)
    (by rw [abs_lt]; constructor <;> norm_num)]
  norm_num

theorem rnd_frameBudget : rnd frameBudget = frameBudget := by
  unfold frameBudget
  rw [rnd_eq_of_near (-6) 8947849 (by norm_num) (by norm_num) (by norm_num)
    (by rw [abs_lt]; constructor <;> norm_num)]
  norm_num

theorem rnd_thousand_frameBudget : rnd (1000 * frameBudget) = 4369067 / 262144 := by
  unfold frameBudget
  rw [rnd_eq_of_near 4 8738134 (by norm_num) (by norm_num) (by norm_num)
    (by rw [abs_lt]; constructor <;> norm_num)]
  norm_num

theorem rnd_eq_of_representable {q : ℚ} (h : F32.Representable q) : rnd q = q := by
  unfold F32.Representable F32.ofRat at h
  split_ifs at h
  exact F32.fin.inj h

/-- No binary32 value lies between `1/60` and `1.f / FPS`: a representable
duration of at least `1/60` is at least the rounded budget. -/
theorem frameBudget_le_of_representable {q : ℚ} (h : F32.Representable q)
    (hq : 1 / 60 ≤ q) : frameBudget ≤ q := by
  rcases lt_or_le q (1 / 32) with hlt | hge
  · have hq0 : 0 ≤ q := le_trans (by norm_num) hq
    have he : expo q = -6 :=
      expo_eq (by norm_num) (le_trans (by norm_num) hq) (lt_of_lt_of_le hlt (by norm_num))
    have hr := rnd_eq_of_representable h
    unfold rnd at hr
    rw [if_pos hq0] at hr
    unfold roundPos ulp at hr
    rw [he] at hr
    have hu : (2 : ℚ) ^ ((-6 : ℤ) - 23) = 1 / 536870912 := by norm_num
    rw [hu] at hr
    have h1 : (8947848 : ℚ) < (roundHalfEven (q / (1 / 536870912)) : ℚ) := by
      have : (1 : ℚ) / 60 ≤ (roundHalfEven (q / (1 / 536870912)) : ℚ) * (1 / 536870912) := by
        rw [hr]
        exact hq
      linarith
    have h2 : 8947848 < roundHalfEven (q / (1 / 536870912)) := by exact_mod_cast h1
    have h3 : (8947849 : ℚ) ≤ (roundHalfEven (q / (1 / 536870912)) : ℚ) := by exact_mod_cast h2
    unfold frameBudget
    rw [← hr]
    linarith
  · unfold frameBudget
    exact le_trans (by norm_num) hge

/-! ## Evaluation of `float` operations -/

theorem F32.ofRat_of_bounds {x : ℚ} (h1 : -(2 : ℚ) ^ (128 : ℕ) < rnd x)
    (h2 : rnd x < (2 : ℚ) ^ (128 : ℕ)) : F32.ofRat x = F32.fin (rnd x) := by
  unfold F32.ofRat
  rw [if_neg (not_le.mpr h2), if_neg (not_le.mpr h1)]

/-- Evaluation of a rounded result at a concrete input. -/
theorem F32.ofRat_eq {x v : ℚ} (e : ℤ) (n : ℕ) (he : -126 ≤ e) (hlo : (2 : ℚ) ^ e ≤ x)
    (hhi : x < (2 : ℚ) ^ (e + 1)) (hn : |x / (2 : ℚ) ^ (e - 23) - n| < 1 / 2)
    (hv : (n : ℚ) * (2 : ℚ) ^ (e - 23) = v) (hb : v < (2 : ℚ) ^ (128 : ℕ)) :
    F32.ofRat x = F32.fin v := by
  have hr : rnd x = v := by rw [rnd_eq_of_near e n he hlo hhi hn, hv]
  have h0 : 0 ≤ v := by
    rw [← hv]
    exact mul_nonneg (Nat.cast_nonneg n) (zpow_nonneg (by norm_num) _)
  have hp : (0 : ℚ) < (2 : ℚ) ^ (128 : ℕ) := by positivity
  rw [F32.ofRat_of_bounds (by rw [hr]; exact lt_of_lt_of_le (neg_lt_zero.mpr hp) h0)
    (by rw [hr]; exact hb), hr]

theorem F32.ofRat_zero : F32.ofRat 0 = F32.fin 0 := by
  have hp : (0 : ℚ) < (2 : ℚ) ^ (128 : ℕ) := by positivity
  rw [F32.ofRat_of_bounds (by rw [rnd_zero]; exact neg_lt_zero.mpr hp)
    (by rw [rnd_zero]; exact hp), rnd_zero]

theorem F32.add_fin (a b : ℚ) : F32.add (F32.fin a) (F32.fin b) = F32.ofRat (a + b) := rfl

theorem F32.sub_fin (a b : ℚ) : F32.sub (F32.fin a) (F32.fin b) = F32.ofRat (a - b) := rfl

theorem F32.mul_fin (a b : ℚ) : F32.mul (F32.fin a) (F32.fin b) = F32.ofRat (a * b) := rfl

theorem F32.div_fin (a b : ℚ) (hb : b ≠ 0) :
    F32.div (F32.fin a) (F32.fin b) = F32.ofRat (a / b) := by
  show (if b = 0 then F32.infOfSign (F32.sign (F32.fin a)) else F32.ofRat (a / b)) = _
  rw [if_neg hb]

theorem F32.toUInt_fin (q : ℚ) : F32.toUInt (F32.fin q)
    = if -1 < q ∧ q < (2 : ℚ) ^ (32 : ℕ) then some ⌊q⌋.toNat else none := rfl

theorem F32.ofInt_FPS : F32.ofInt (FPS : ℤ) = F32.fin 60 := by
  unfold F32.ofInt FPS
  exact F32.ofRat_eq 5 15728640 (by norm_num) (by norm_num) (by norm_num)
    (by rw [abs_lt]; constructor <;> norm_num) (by norm_num) (by norm_num)

/-- The value of `1.f / FPS`. -/
theorem one_div_FPS : F32.div (F32.fin 1) (F32.ofInt (FPS : ℤ)) = F32.fin frameBudget := by
  rw [F32.ofInt_FPS, F32.div_fin 1 60 (by norm_num)]
  unfold frameBudget
  exact F32.ofRat_eq (-6) 8947849 (by norm_num) (by norm_num) (by norm_num)
    (by rw [abs_lt]; constructor <;> norm_num) (by norm_num) (by norm_num)

/-- The delay of `timer` for a finite non-negative frame duration. -/
theorem frameDelay_fin {q : ℚ} (hq : 0 ≤ q) :
    frameDelay (F32.fin q) = F32.fin (max 0 (rnd (frameBudget - q))) := by
  have hle : rnd (frameBudget - q) ≤ frameBudget := by
    have := rnd_mono (show frameBudget - q ≤ frameBudget by linarith)
    rwa [rnd_frameBudget] at this
  have hb : frameBudget < (2 : ℚ) ^ (128 : ℕ) := by
    unfold frameBudget
    norm_num
  unfold frameDelay
  rw [one_div_FPS, F32.sub_fin]
  unfold F32.ofRat
  rw [if_neg (not_le.mpr (lt_of_le_of_lt hle hb))]
  split_ifs with h
  · have h0 : rnd (frameBudget - q) ≤ 0 := by
      have : (0 : ℚ) < (2 : ℚ) ^ (128 : ℕ) := by positivity
      linarith
    rw [max_eq_left h0]
    rfl
  · unfold F32.max F32.lt
    by_cases hp : 0 < rnd (frameBudget - q)
    · simp [hp, max_eq_right hp.le]
    · simp [hp, max_eq_left (not_lt.mp hp)]

theorem frameDelay_eq_zero {q : ℚ} (hq : frameBudget ≤ q) :
    frameDelay (F32.fin q) = F32.fin 0 := by
  have hq0 : 0 ≤ q := le_trans (by unfold frameBudget; norm_num) hq
  rw [frameDelay_fin hq0, max_eq_left (rnd_nonpos (by linarith))]

/-- Bounds on the delay and on the `float` number of milliseconds. -/
theorem delay_bounds {q : ℚ} (hq : 0 ≤ q) :
    0 ≤ max 0 (rnd (frameBudget - q)) ∧ max 0 (rnd (frameBudget - q)) ≤ frameBudget ∧
    0 ≤ rnd (1000 * max 0 (rnd (frameBudget - q))) ∧
    rnd (1000 * max 0 (rnd (frameBudget - q))) ≤ 4369067 / 262144 := by
  have hle : rnd (frameBudget - q) ≤ frameBudget := by
    have := rnd_mono (show frameBudget - q ≤ frameBudget by linarith)
    rwa [rnd_frameBudget] at this
  have hfb : (0 : ℚ) ≤ frameBudget := by unfold frameBudget; norm_num
  have h1 : 0 ≤ max 0 (rnd (frameBudget - q)) := le_max_left _ _
  have h2 : max 0 (rnd (frameBudget - q)) ≤ frameBudget := max_le hfb hle
  refine ⟨h1, h2, rnd_nonneg (by linarith), ?_⟩
  rw [← rnd_thousand_frameBudget]
  exact rnd_mono (by linarith)

/-- The computed delay differs from the exact `max(0, 1/60 - d)` by less than
two nanoseconds (`2^-29` seconds). -/
theorem delay_near_exact {q : ℚ} (hq : 0 ≤ q) :
    |max 0 (rnd (frameBudget - q)) - max 0 (1 / 60 - q)| ≤ 1 / 536870912 := by
  have hfb : frameBudget - 1 / 60 = 7 / 8053063680 := by unfold frameBudget; norm_num
  rcases le_or_lt (frameBudget - q) 0 with h | h
  · rw [max_eq_left (rnd_nonpos h), max_eq_left (by linarith)]
    norm_num
  · have hlt : frameBudget - q < (2 : ℚ) ^ (-5 : ℤ) := by
      have : frameBudget < (2 : ℚ) ^ (-5 : ℤ) := by unfold frameBudget; norm_num
      linarith
    have hu := ulp_le_of_lt h (by norm_num) hlt
    have hu2 : ulp (frameBudget - q) ≤ 1 / 536870912 := by
      refine le_trans hu ?_
      norm_num
    have he := abs_rnd_sub_le h.le
    have h1 := abs_max_sub_max_le_abs (rnd (frameBudget - q)) (1 / 60 - q) 0
    rw [max_comm (rnd (frameBudget - q)) 0, max_comm (1 / 60 - q) 0] at h1
    refine le_trans h1 ?_
    have h2 : rnd (frameBudget - q) - (1 / 60 - q)
        = (rnd (frameBudget - q) - (frameBudget - q)) + 7 / 8053063680 := by
      rw [← hfb]
      ring
    rw [h2]
    rw [abs_le] at he ⊢
    constructor <;> linarith [he.1, he.2]

/-- The rate `draw` reports when the delay in force is `0` and the frame took
`1/128` of a second. -/
theorem fps_of_zero_delay :
    F32.div (F32.fin 1) (F32.add (F32.fin 0) (F32.fin (1 / 128))) = F32.fin 128 := by
  have h1 : F32.add (F32.fin 0) (F32.fin (1 / 128)) = F32.fin (1 / 128) := by
    rw [F32.add_fin]
    exact F32.ofRat_eq (-7) 8388608 (by norm_num) (by norm_num) (by norm_num)
      (by rw [abs_lt]; constructor <;> norm_num) (by norm_num) (by norm_num)
  rw [h1, F32.div_fin _ _ (by norm_num)]
  exact F32.ofRat_eq 7 8388608 (by norm_num) (by norm_num) (by norm_num)
    (by rw [abs_lt]; constructor <;> norm_num) (by norm_num) (by norm_num)

/-- The rate `1 / (delay + d)` with the delay computed from the same duration
`d = 1/128`: the budget is used up exactly and the rate is just under 60. -/
theorem fps_of_same_tick_delay :
    F32.div (F32.fin 1) (F32.add (frameDelay (F32.fin (1 / 128))) (F32.fin (1 / 128)))
      = F32.fin (15728639 / 262144) := by
  have h0 : rnd (frameBudget - 1 / 128) = 4753545 / 536870912 := by
    unfold frameBudget
    rw [rnd_eq_of_near (-7) 9507090 (by norm_num) (by norm_num) (by norm_num)
      (by rw [abs_lt]; constructor <;> norm_num)]
    norm_num
  have h1 : frameDelay (F32.fin (1 / 128)) = F32.fin (4753545 / 536870912) := by
    rw [frameDelay_fin (by norm_num), h0, max_eq_right (by norm_num)]
  have h2 : F32.add (F32.fin (4753545 / 536870912)) (F32.fin (1 / 128))
      = F32.fin (8947849 / 536870912) := by
    rw [F32.add_fin]
    exact F32.ofRat_eq (-6) 8947849 (by norm_num) (by norm_num) (by norm_num)
      (by rw [abs_lt]; constructor <;> norm_num) (by norm_num) (by norm_num)
  rw [h1, h2, F32.div_fin _ _ (by norm_num)]
  exact F32.ofRat_eq 5 15728639 (by norm_num) (by norm_num) (by norm_num)
    (by rw [abs_lt]; constructor <;> norm_num) (by norm_num) (by norm_num)

/-- A colour component `float(r) / RAND_MAX` for a generator output
`0 ≤ r ≤ RAND_MAX` is a finite value between 0 and 1. -/
theorem noise_component (r m : ℤ) (h0 : 0 ≤ r) (h1 : r ≤ m) (hm0 : 0 < m)
    (hm1 : m < (2 : ℤ) ^ (31 : ℕ)) :
    ∃ v : ℚ, F32.div (F32.ofInt r) (F32.ofInt m) = F32.fin v ∧ 0 ≤ v ∧ v ≤ 1 := by
  have hp : (0 : ℚ) < (2 : ℚ) ^ (128 : ℕ) := by positivity
  have hbig : (2147483648 : ℚ) < (2 : ℚ) ^ (128 : ℕ) := by norm_num
  have hr0 : (0 : ℚ) ≤ (r : ℚ) := by exact_mod_cast h0
  have hrm : (r : ℚ) ≤ (m : ℚ) := by exact_mod_cast h1
  have hm1q : (m : ℚ) ≤ 2147483648 := by
    have : m ≤ 2147483648 := by
      have : (2 : ℤ) ^ (31 : ℕ) = 2147483648 := by norm_num
      omega
    exact_mod_cast this
  have hm0q : (1 : ℚ) ≤ (m : ℚ) := by exact_mod_cast hm0
  have a1 : 0 ≤ rnd (r : ℚ) := rnd_nonneg hr0
  have a2 : rnd (r : ℚ) ≤ rnd (m : ℚ) := rnd_mono hrm
  have a3 : rnd (m : ℚ) ≤ 2147483648 := by
    have := rnd_mono hm1q
    rwa [rnd_two_pow_31] at this
  have a4 : 1 ≤ rnd (m : ℚ) := by
    have := rnd_mono hm0q
    rwa [rnd_one] at this
  have er : F32.ofInt r = F32.fin (rnd (r : ℚ)) :=
    F32.ofRat_of_bounds (lt_of_lt_of_le (neg_lt_zero.mpr hp) a1)
      (lt_of_le_of_lt (le_trans a2 a3) hbig)
  have em : F32.ofInt m = F32.fin (rnd (m : ℚ)) :=
    F32.ofRat_of_bounds (lt_of_lt_of_le (neg_lt_zero.mpr hp) (le_trans a1 a2))
      (lt_of_le_of_lt a3 hbig)
  have hpos : 0 < rnd (m : ℚ) := lt_of_lt_of_le one_pos a4
  have b1 : 0 ≤ rnd (r : ℚ) / rnd (m : ℚ) := div_nonneg a1 hpos.le
  have b2 : rnd (r : ℚ) / rnd (m : ℚ) ≤ 1 := (div_le_one hpos).mpr a2
  have c1 : 0 ≤ rnd (rnd (r : ℚ) / rnd (m : ℚ)) := rnd_nonneg b1
  have c2 : rnd (rnd (r : ℚ) / rnd (m : ℚ)) ≤ 1 := by
    have := rnd_mono b2
    rwa [rnd_one] at this
  refine ⟨rnd (rnd (r : ℚ) / rnd (m : ℚ)), ?_, c1, c2⟩
  rw [er, em, F32.div_fin _ _ (ne_of_gt hpos)]
  exact F32.ofRat_of_bounds (lt_of_lt_of_le (neg_lt_zero.mpr hp) c1)
    (lt_of_le_of_lt c2 (by norm_num))

/-! ## The fill loops -/

theorem store_some_lt (buf : List Vec4) (i : ℕ) (v : Vec4) (h : i < buf.length) :
    store (some buf) i v = .ok (some (buf.set i v)) := by
  unfold store
  simp [h]

theorem store_some_ge (buf : List Vec4) (i : ℕ) (v : Vec4) (h : buf.length ≤ i) :
    store (some buf) i v = .error .outOfBounds := by
  unfold store
  simp [Nat.not_lt.mpr h]

theorem fillLoop_succ (gen : ℕ → Vec4) (n : ℕ) (frame : Option (List Vec4)) :
    fillLoop gen (n + 1) frame = (fillLoop gen n frame >>= fun fr => store fr n (gen n)) := by
  unfold fillLoop
  rw [List.range_succ, List.foldlM_append]
  simp

theorem fillLoop_zero (gen : ℕ → Vec4) (frame : Option (List Vec4)) :
    fillLoop gen 0 frame = .ok frame := by
  simp [fillLoop]
  rfl

/-- A fill loop of `n` iterations over an array of at least `n` elements
completes, and leaves `gen i` at every index below `n` and the rest untouched. -/
theorem fillLoop_ok (gen : ℕ → Vec4) (buf : List Vec4) (n : ℕ) (h : n ≤ buf.length) :
    fillLoop gen n (some buf) = .ok (some ((List.range n).map gen ++ buf.drop n)) := by
  induction n with
  | zero =>
    simp [fillLoop]
    rfl
  | succ n ih =>
    have hlt : n < buf.length := h
    rw [fillLoop_succ, ih (Nat.le_of_lt hlt)]
    show store (some ((List.range n).map gen ++ buf.drop n)) n (gen n) = _
    rw [store_some_lt _ _ _ (by simp; omega)]
    congr 2
    rw [List.set_append_right _ _ (by simp), List.range_succ, List.map_append]
    simp only [List.length_map, List.length_range, Nat.sub_self, List.map_cons, List.map_nil,
      List.append_assoc, List.singleton_append]
    congr 1
    rw [List.drop_eq_getElem_cons hlt]
    rfl

/-- A fill loop of more iterations than the array has elements writes past
its end. -/
theorem fillLoop_fault (gen : ℕ → Vec4) (buf : List Vec4) (n : ℕ) (h : buf.length < n) :
    fillLoop gen n (some buf) = .error .outOfBounds := by
  induction n with
  | zero => omega
  | succ n ih =>
    rw [fillLoop_succ]
    rcases Nat.lt_or_ge buf.length n with hlt | hge
    · rw [ih hlt]
      rfl
    · have hn : n = buf.length := by omega
      rw [fillLoop_ok gen buf n (by omega)]
      show store (some ((List.range n).map gen ++ buf.drop n)) n (gen n) = _
      exact store_some_ge _ _ _ (by simp; omega)

/-! ## Evaluation of the callbacks -/

theorem imul_ok {a b : ℤ} (h1 : -(2 : ℤ) ^ (31 : ℕ) ≤ a * b) (h2 : a * b < (2 : ℤ) ^ (31 : ℕ)) :
    imul a b = .ok (a * b) := by
  unfold imul
  rw [if_pos ⟨h1, h2⟩]

theorem imul_eq_ok {a b n : ℤ} (h : imul a b = .ok n) : n = a * b := by
  unfold imul at h
  split_ifs at h
  exact (Except.ok.inj h).symm

theorem initializeGL_ok (s : State) (h1 : 0 ≤ s.g_width * s.g_height)
    (h2 : s.g_width * s.g_height < (2 : ℤ) ^ (31 : ℕ)) :
    initializeGL s = .ok ({ s with g_frame := some (List.replicate (s.g_width * s.g_height).toNat
        zeroPixel) },
      [.clearColor (F32.fin 0) (F32.fin 0) (F32.fin 0) (F32.fin 1)]) := by
  unfold initializeGL
  rw [imul_ok (le_trans (by norm_num) h1) h2]
  unfold makeFrame
  simp only [bind, Except.bind, pure, Except.pure]
  rw [if_neg (not_lt.mpr h1)]

theorem main_ok (win t0 : ℤ) :
    main win (initialState t0) = .ok (startState win t0,
      [.print .initializingWindow, .glutInit, .initDisplayMode, .initWindowPosition 50 100,
        .initWindowSize 1360 768, .createWindow,
        .clearColor (F32.fin 0) (F32.fin 0) (F32.fin 0) (F32.fin 1),
        .print .assigningCallbacks, .reshapeFunc, .displayFunc, .keyboardFunc, .specialFunc,
        .timerFunc 16, .print .startingApplication, .mainLoop]) := by
  unfold main
  rw [initializeGL_ok _ (by simp only [initialState]; norm_num)
    (by simp only [initialState]; norm_num)]
  rfl

theorem frameLength_startState (win t0 : ℤ) : frameLength (startState win t0) = 1044480 := by
  unfold frameLength startState
  exact List.length_replicate _ _

/-- The scheduler delay of `timer` for a finite non-negative frame duration:
`timer` completes, stores the delay and schedules itself after the truncated
number of milliseconds. -/
theorem timer_of_fin (s : State) {q : ℚ} (hw : s.g_window ≠ 0) (hr : s.g_frameRate = F32.fin q)
    (hq : 0 ≤ q) :
    timer s = .ok ({ s with g_delay := F32.fin (max 0 (rnd (frameBudget - q))) },
      [.postRedisplay,
       .timerFunc ⌊rnd (1000 * max 0 (rnd (frameBudget - q)))⌋.toNat]) := by
  obtain ⟨_, _, h3, h4⟩ := delay_bounds hq
  have hp : (0 : ℚ) < (2 : ℚ) ^ (128 : ℕ) := by positivity
  have hm : F32.mul (F32.fin 1000) (F32.fin (max 0 (rnd (frameBudget - q))))
      = F32.fin (rnd (1000 * max 0 (rnd (frameBudget - q)))) := by
    rw [F32.mul_fin]
    exact F32.ofRat_of_bounds (lt_of_lt_of_le (neg_lt_zero.mpr hp) h3)
      (lt_of_le_of_lt h4 (by norm_num))
  unfold timer
  rw [if_pos hw, hr, frameDelay_fin hq, hm]
  rw [F32.toUInt_fin, if_pos ⟨by linarith, lt_of_le_of_lt h4 (by norm_num)⟩]

/-- A call of `draw` whose loop bound fits the allocated array completes; it
leaves the noise colour at every index below the bound. -/
theorem draw_ok (p : Platform) (env : DrawEnv) (s : State) (n : ℤ) (buf : List Vec4)
    (hn : imul s.g_width s.g_height = .ok n) (hf : s.g_frame = some buf)
    (hlen : n.toNat ≤ buf.length) :
    draw p env s = .ok
      ({ s with
          g_frame := some ((List.range n.toNat).map (noise p env) ++ buf.drop n.toNat),
          g_frameRate := env.elapsed, g_frameTime := env.now,
          g_framesPerSecond := F32.div (F32.fin 1) (F32.add s.g_delay env.elapsed) },
       [.drawPixels s.g_width s.g_height
          (some ((List.range n.toNat).map (noise p env) ++ buf.drop n.toNat)),
        .swapBuffers, .print (.fps (F32.div (F32.fin 1) (F32.add s.g_delay env.elapsed)))]) := by
  have hlen2 : n.toNat ≤ ((List.range n.toNat).map (fun _ => clearColour)
      ++ buf.drop n.toNat).length := by
    simp only [List.length_append, List.length_map, List.length_range, List.length_drop]
    omega
  have hdrop : ((List.range n.toNat).map (fun _ => clearColour) ++ buf.drop n.toNat).drop n.toNat
      = buf.drop n.toNat := by
    rw [List.drop_append_of_le_length (by simp)]
    simp
  unfold draw
  rw [hn, hf]
  simp only [bind, Except.bind, pure, Except.pure]
  rw [fillLoop_ok _ buf _ hlen]
  simp only
  rw [fillLoop_ok _ _ _ hlen2, hdrop]

/-- A call of `draw` whose loop bound exceeds the allocated array writes out of bounds. -/
theorem draw_fault (p : Platform) (env : DrawEnv) (s : State) (n : ℤ) (buf : List Vec4)
    (hn : imul s.g_width s.g_height = .ok n) (hf : s.g_frame = some buf)
    (hlen : buf.length < n.toNat) :
    draw p env s = .error .outOfBounds := by
  unfold draw
  rw [hn, hf]
  simp only [bind, Except.bind, pure, Except.pure]
  rw [fillLoop_fault _ buf _ hlen]

/-- A fill loop of at least one iteration on `nullptr` dereferences it. -/
theorem fillLoop_null (gen : ℕ → Vec4) (n : ℕ) (h : 0 < n) :
    fillLoop gen n none = .error .nullFrame := by
  induction n with
  | zero => omega
  | succ n ih =>
    rw [fillLoop_succ]
    rcases Nat.eq_zero_or_pos n with h0 | hpos
    · rw [h0, fillLoop_zero]
      rfl
    · rw [ih hpos]
      rfl

/-- A call of `draw` with a positive loop bound and no frame dereferences `nullptr`. -/
theorem draw_fault_null (p : Platform) (env : DrawEnv) (s : State) (n : ℤ)
    (hn : imul s.g_width s.g_height = .ok n) (hf : s.g_frame = none) (hpos : 0 < n.toNat) :
    draw p env s = .error .nullFrame := by
  unfold draw
  rw [hn, hf]
  simp only [bind, Except.bind, pure, Except.pure]
  rw [fillLoop_null _ _ hpos]

/-- A call of `draw` whose loop bound fits the frame completes: the state it
returns and the effects it issues. -/
theorem draw_total (p : Platform) (env : DrawEnv) (s : State) (n : ℤ)
    (hn : imul s.g_width s.g_height = .ok n) (hlen : n.toNat ≤ frameLength s) :
    ∃ frame : Option (List Vec4),
      draw p env s = .ok
        ({ s with g_frame := frame, g_frameRate := env.elapsed, g_frameTime := env.now,
                  g_framesPerSecond := F32.div (F32.fin 1) (F32.add s.g_delay env.elapsed) },
         [.drawPixels s.g_width s.g_height frame, .swapBuffers,
          .print (.fps (F32.div (F32.fin 1) (F32.add s.g_delay env.elapsed)))]) ∧
      (∀ i, i < n.toNat → frame.bind (fun buf => buf[i]?) = some (noise p env i)) ∧
      (∀ s2 : State, s2.g_frame = frame → frameLength s2 = frameLength s) ∧
      (∀ i, n.toNat ≤ i → frame.bind (fun buf => buf[i]?) = pixelAt s i) := by
  cases hf : s.g_frame with
  | none =>
    have h0 : n.toNat = 0 := by
      unfold frameLength at hlen
      rw [hf] at hlen
      exact Nat.le_zero.mp hlen
    refine ⟨none, ?_, ?_, ?_, ?_⟩
    · unfold draw
      rw [hn, hf]
      simp only [bind, Except.bind, pure, Except.pure, h0, fillLoop_zero]
    · intro i hi
      omega
    · intro s2 h2
      unfold frameLength
      rw [hf, h2]
    · intro i _
      unfold pixelAt
      rw [hf]
      rfl
  | some buf =>
    have hl : n.toNat ≤ buf.length := by
      unfold frameLength at hlen
      rw [hf] at hlen
      exact hlen
    refine ⟨_, draw_ok p env s n buf hn hf hl, ?_, ?_, ?_⟩
    · intro i hi
      show ((List.range n.toNat).map (noise p env) ++ buf.drop n.toNat)[i]? = _
      rw [List.getElem?_append_left (by simpa using hi)]
      simp [List.getElem?_range hi]
    · intro s2 h2
      unfold frameLength
      rw [hf, h2]
      simp only [List.length_append, List.length_map, List.length_range, List.length_drop]
      omega
    · intro i hi
      unfold pixelAt
      rw [hf]
      show ((List.range n.toNat).map (noise p env) ++ buf.drop n.toNat)[i]? = buf[i]?
      rw [List.getElem?_append_right (by simpa using hi), List.getElem?_drop]
      simp only [List.length_map, List.length_range]
      congr 1
      omega

/-- Whenever `draw` completes it leaves the window handle alone and issues a
present, a buffer swap and a log line, nothing else. -/
theorem draw_inv (p : Platform) (env : DrawEnv) (s s1 : State) (effs : List Effect)
    (h : draw p env s = .ok (s1, effs)) :
    s1.g_window = s.g_window ∧
    ∃ frame fps, effs = [.drawPixels s.g_width s.g_height frame, .swapBuffers,
      .print (.fps fps)] := by
  unfold draw at h
  cases h1 : imul s.g_width s.g_height with
  | error e =>
    rw [h1] at h
    exact Except.noConfusion h
  | ok n =>
    rw [h1] at h
    simp only [bind, Except.bind] at h
    cases h2 : fillLoop (fun _ => clearColour) n.toNat s.g_frame with
    | error e =>
      rw [h2] at h
      exact Except.noConfusion h
    | ok cleared =>
      rw [h2] at h
      simp only at h
      cases h3 : fillLoop (noise p env) n.toNat cleared with
      | error e =>
        rw [h3] at h
        exact Except.noConfusion h
      | ok filled =>
        rw [h3] at h
        have hp := Prod.mk.inj (Except.ok.inj h)
        rw [← hp.1, ← hp.2]
        exact ⟨rfl, _, _, rfl⟩

theorem keyPressed_other {key : ℕ} (x y : ℤ) (s : State) (h : key ≠ 27) :
    keyPressed key x y s = (s, [.print (.unhandledKey key)]) := by
  unfold keyPressed
  rw [if_neg h]

theorem specialKeyPressed_arrow (p : Platform) {key : ℤ} (x y : ℤ) (s : State)
    (h : key = p.GLUT_KEY_LEFT ∨ key = p.GLUT_KEY_RIGHT) :
    specialKeyPressed p key x y s = (s, []) := by
  unfold specialKeyPressed
  rw [if_pos h]

theorem specialKeyPressed_other (p : Platform) {key : ℤ} (x y : ℤ) (s : State)
    (h : ¬ (key = p.GLUT_KEY_LEFT ∨ key = p.GLUT_KEY_RIGHT)) :
    specialKeyPressed p key x y s = (s, [.print (.unhandledSpecialKey key)]) := by
  unfold specialKeyPressed
  rw [if_neg h]

theorem run_cons_ok (p : Platform) {s s1 s2 : State} {e : Event} {es : List Event}
    {effs1 effs2 : List Effect} (h : dispatch p s e = .ok (s1, effs1))
    (hr : run p s1 es = .ok (s2, effs2)) :
    run p s (e :: es) = .ok (s2, effs1 ++ effs2) := by
  show (dispatch p s e >>= fun r => run p r.1 es >>= fun r2 => pure (r2.1, r.2 ++ r2.2)) = _
  rw [h]
  show (run p s1 es >>= fun r2 => pure (r2.1, effs1 ++ r2.2)) = _
  rw [hr]
  rfl

/-- Once the window handle is `0`, every callback that completes keeps it `0`
and requests neither a redraw nor a timer. -/
theorem dispatch_closed (p : Platform) (s s1 : State) (e : Event) (effs : List Effect)
    (hw : s.g_window = 0) (h : dispatch p s e = .ok (s1, effs)) :
    s1.g_window = 0 ∧ effs.filter Effect.isRedrawRequest = [] ∧
      effs.filter Effect.isTimerRequest = [] := by
  cases e with
  | resize w h1 =>
    have hp := Prod.mk.inj (Except.ok.inj h)
    rw [← hp.1, ← hp.2]
    exact ⟨hw, rfl, rfl⟩
  | timer =>
    have h2 : timer s = .ok (s1, effs) := h
    unfold timer at h2
    rw [if_neg (not_not.mpr hw)] at h2
    have hp := Prod.mk.inj (Except.ok.inj h2)
    rw [← hp.1, ← hp.2]
    exact ⟨hw, rfl, rfl⟩
  | draw env =>
    have h2 : draw p env s = .ok (s1, effs) := h
    obtain ⟨h3, frame, fps, h4⟩ := draw_inv p env s s1 effs h2
    rw [h3, h4]
    exact ⟨hw, rfl, rfl⟩
  | key k x y =>
    have h2 : Except.ok (keyPressed k x y s) = Except.ok (s1, effs) := h
    by_cases hk : k = 27
    · subst hk
      have hp := Prod.mk.inj (Except.ok.inj h2)
      rw [← hp.1, ← hp.2]
      exact ⟨rfl, rfl, rfl⟩
    · rw [keyPressed_other x y s hk] at h2
      have hp := Prod.mk.inj (Except.ok.inj h2)
      rw [← hp.1, ← hp.2]
      exact ⟨hw, rfl, rfl⟩
  | special k x y =>
    have h2 : Except.ok (specialKeyPressed p k x y s) = Except.ok (s1, effs) := h
    by_cases hk : k = p.GLUT_KEY_LEFT ∨ k = p.GLUT_KEY_RIGHT
    · rw [specialKeyPressed_arrow p x y s hk] at h2
      have hp := Prod.mk.inj (Except.ok.inj h2)
      rw [← hp.1, ← hp.2]
      exact ⟨hw, rfl, rfl⟩
    · rw [specialKeyPressed_other p x y s hk] at h2
      have hp := Prod.mk.inj (Except.ok.inj h2)
      rw [← hp.1, ← hp.2]
      exact ⟨hw, rfl, rfl⟩

theorem run_closed (p : Platform) (evs : List Event) :
    ∀ (s t : State) (effs : List Effect), s.g_window = 0 → run p s evs = .ok (t, effs) →
      t.g_window = 0 ∧ effs.filter Effect.isRedrawRequest = [] ∧
        effs.filter Effect.isTimerRequest = [] := by
  induction evs with
  | nil =>
    intro s t effs hw h
    have hp := Prod.mk.inj (Except.ok.inj h)
    rw [← hp.1, ← hp.2]
    exact ⟨hw, rfl, rfl⟩
  | cons e es ih =>
    intro s t effs hw h
    have h0 : (dispatch p s e >>= fun r => run p r.1 es >>= fun r2 =>
        pure (r2.1, r.2 ++ r2.2)) = .ok (t, effs) := h
    cases h1 : dispatch p s e with
    | error f =>
      rw [h1] at h0
      exact Except.noConfusion h0
    | ok r1 =>
      rw [h1] at h0
      obtain ⟨s1, effs1⟩ := r1
      have h2 : (run p s1 es >>= fun r2 => pure (r2.1, effs1 ++ r2.2)) = .ok (t, effs) := h0
      obtain ⟨a1, a2, a3⟩ := dispatch_closed p s s1 e effs1 hw h1
      cases h3 : run p s1 es with
      | error f =>
        rw [h3] at h2
        exact Except.noConfusion h2
      | ok r2 =>
        rw [h3] at h2
        obtain ⟨s2, effs2⟩ := r2
        have hp := Prod.mk.inj (Except.ok.inj h2)
        obtain ⟨b1, b2, b3⟩ := ih s1 s2 effs2 a1 h3
        have e1 : s2 = t := hp.1
        have e2 : effs1 ++ effs2 = effs := hp.2
        rw [← e1, ← e2, List.filter_append, List.filter_append, a2, a3, b2, b3]
        exact ⟨b1, rfl, rfl⟩

/-! ## The claims -/

/-- C1 (the code departs from the claim).  After start-up, `resize(640, 480)`
completes with the frame still holding the 1,044,480 pixels allocated by
`initialize()`, not `640 * 480 = 307,200`: `resize` never changes the length
of the frame. -/
theorem resize_keeps_frame_length (win t0 : ℤ) :
    (∃ effs, main win (initialState t0) = .ok (startState win t0, effs)) ∧
    (resize 640 480 (startState win t0)).1.g_width = 640 ∧
    (resize 640 480 (startState win t0)).1.g_height = 480 ∧
    frameLength (resize 640 480 (startState win t0)).1 = 1044480 ∧
    (frameLength (resize 640 480 (startState win t0)).1 : ℤ) ≠ 640 * 480 ∧
    ∀ (s : State) (w h : ℤ), frameLength (resize w h s).1 = frameLength s := by
  have hl : frameLength (resize 640 480 (startState win t0)).1 = 1044480 :=
    frameLength_startState win t0
  refine ⟨⟨_, main_ok win t0⟩, rfl, rfl, hl, ?_, fun _ _ _ => rfl⟩
  rw [hl]
  norm_num

/-- C2 (the code departs from the claim).  After start-up and
`resize(1361, 768)`, index `1044480` is below `g_width * g_height` but not
below the length of the frame, and `draw()` writes out of bounds.  (After
`resize(1, 1)` the loops do stay inside the frame: `draw()` completes, writes
index 0 and leaves every other element as it was.) -/
theorem draw_out_of_bounds_after_resize (p : Platform) (env : DrawEnv) (win t0 : ℤ) :
    (∃ effs, run p (startState win t0) [.resize 1361 768]
        = .ok ((resize 1361 768 (startState win t0)).1, effs)) ∧
    (1044480 : ℤ) < (resize 1361 768 (startState win t0)).1.g_width
        * (resize 1361 768 (startState win t0)).1.g_height ∧
    ¬ (1044480 < frameLength (resize 1361 768 (startState win t0)).1) ∧
    draw p env (resize 1361 768 (startState win t0)).1 = .error .outOfBounds ∧
    ∃ s1 effs, draw p env (resize 1 1 (startState win t0)).1 = .ok (s1, effs) ∧
      pixelAt s1 0 = some (noise p env 0) ∧
      ∀ i, 1 ≤ i → pixelAt s1 i = pixelAt (startState win t0) i := by
  have hl : frameLength (resize 1361 768 (startState win t0)).1 = 1044480 :=
    frameLength_startState win t0
  have hl1 : frameLength (resize 1 1 (startState win t0)).1 = 1044480 :=
    frameLength_startState win t0
  refine ⟨⟨_, rfl⟩, by simp only [resize]; norm_num, by rw [hl]; exact lt_irrefl _, ?_, ?_⟩
  · refine draw_fault p env _ (1361 * 768) (List.replicate 1044480 zeroPixel)
      (imul_ok (by simp only [resize]; norm_num) (by simp only [resize]; norm_num)) rfl ?_
    rw [List.length_replicate]
    norm_num
  · obtain ⟨frame, hd, h0, -, hrest⟩ := draw_total p env (resize 1 1 (startState win t0)).1 1
      (imul_ok (a := 1) (b := 1) (by norm_num) (by norm_num))
      (by rw [hl1]; exact Nat.le_of_ble_eq_true rfl)
    refine ⟨_, _, hd, ?_, ?_⟩
    · have := h0 0 (by decide)
      unfold pixelAt
      cases frame with
      | none => exact Option.noConfusion this
      | some buf => exact this
    · intro i hi
      have := hrest i hi
      unfold pixelAt at this ⊢
      cases frame with
      | none => exact this
      | some buf => exact this

/-- C3.  For a finite frame duration `d ≥ 0` held in `g_frameRate`, `timer()`
completes and the delay it stores is `std::max(0.f, 1.f / FPS - d)`: the
binary32 value `max(0, fl(fl(1/60) - d))`, within `2^-29` of the exact
`max(0, 1/60 - d)`, never negative, and exactly `0` whenever the duration is a
`float` of at least `1/60`.  At `d = 0.0` the delay is `1.f / 60`, at
`d = 0.05f` it is `0`. -/
theorem delay_floor (s : State) (q : ℚ) (hw : s.g_window ≠ 0)
    (hr : s.g_frameRate = F32.fin q) (hq : 0 ≤ q) :
    ∃ (s1 : State) (effs : List Effect) (delay : ℚ),
      timer s = .ok (s1, effs) ∧
      s1.g_delay = F32.max (F32.fin 0)
        (F32.sub (F32.div (F32.fin 1) (F32.ofInt (FPS : ℤ))) (F32.fin q)) ∧
      s1.g_delay = F32.fin delay ∧
      delay = max 0 (rnd (rnd (1 / 60) - q)) ∧
      |delay - max 0 (1 / 60 - q)| ≤ 1 / 536870912 ∧
      0 ≤ delay ∧
      (F32.Representable q → 1 / 60 ≤ q → delay = 0) ∧
      (rnd (1 / 60) ≤ q → delay = 0) ∧
      (q = 0 → delay = rnd (1 / 60) ∧ delay = 8947849 / 536870912) ∧
      (q = 1 / 20 ∨ q = rnd (1 / 20) → delay = 0) := by
  refine ⟨_, _, max 0 (rnd (frameBudget - q)), timer_of_fin s hw hr hq, ?_, rfl, ?_,
    delay_near_exact hq, le_max_left _ _, ?_, ?_, ?_, ?_⟩
  · exact (frameDelay_fin hq).symm
  · rw [rnd_one_div_sixty]
  · intro hrep hge
    exact max_eq_left (rnd_nonpos (by linarith [frameBudget_le_of_representable hrep hge]))
  · intro hge
    rw [rnd_one_div_sixty] at hge
    exact max_eq_left (rnd_nonpos (by linarith))
  · intro h0
    rw [h0, sub_zero, rnd_frameBudget, rnd_one_div_sixty]
    unfold frameBudget
    exact ⟨max_eq_right (by norm_num), max_eq_right (by norm_num)⟩
  · intro h
    rcases h with h | h
    · rw [h]
      exact max_eq_left (rnd_nonpos (by unfold frameBudget; norm_num))
    · rw [h, rnd_one_twentieth]
      exact max_eq_left (rnd_nonpos (by unfold frameBudget; norm_num))

/-- C3 at a concrete state: on the first tick after start-up (window 1, no
frame measured yet) the delay is `1.f / 60`. -/
theorem delay_floor_witness :
    (startState 1 0).g_window ≠ 0 ∧ (startState 1 0).g_frameRate = F32.fin 0 ∧
    ∃ (s1 : State) (effs : List Effect), timer (startState 1 0) = .ok (s1, effs) ∧
      s1.g_delay = F32.fin (8947849 / 536870912) := by
  have hw : (startState 1 0).g_window ≠ 0 := by
    show (1 : ℤ) ≠ 0
    norm_num
  obtain ⟨s1, effs, delay, h1, _, h3, _, _, _, _, _, h8, _⟩ :=
    delay_floor (startState 1 0) 0 hw rfl le_rfl
  exact ⟨hw, rfl, s1, effs, h1, by rw [h3, (h8 rfl).2]⟩

/-- C4 fails on the code.  Start-up, a tick whose frame takes 1 s, then a tick
whose frame takes 1/128 s: the second `draw()` reports `1 / (0 + 1/128) = 128`
frames per second, the delay in force being the `0` that `timer()` computed
from the previous, one-second frame.  With the delay of that same 1/128 s
frame the value would be just under 60, and `min(60, 128) = 60`. -/
theorem effective_fps_counterexample :
    ∃ (s : State) (effs : List Effect),
      run samplePlatform (startState 1 0)
        [.timer, .draw (sampleEnv 1000000000 (F32.fin 1)),
         .timer, .draw (sampleEnv 1007812500 (F32.fin (1 / 128)))] = .ok (s, effs) ∧
      s.g_frameRate = F32.fin (1 / 128) ∧
      s.g_framesPerSecond = F32.fin 128 ∧
      F32.div (F32.fin 1) (F32.add (frameDelay s.g_frameRate) s.g_frameRate)
        = F32.fin (15728639 / 262144) ∧
      s.g_framesPerSecond
        ≠ F32.div (F32.fin 1) (F32.add (frameDelay s.g_frameRate) s.g_frameRate) ∧
      s.g_framesPerSecond ≠ F32.fin (min 60 (1 / (1 / 128))) := by
  have hw : (startState 1 0).g_window ≠ 0 := by
    show (1 : ℤ) ≠ 0
    norm_num
  have hmul : imul 1360 768 = .ok (1360 * 768) := imul_ok (by norm_num) (by norm_num)
  have hnat : ((1360 : ℤ) * 768).toNat = 1044480 := by decide
  -- first tick
  have h1 := timer_of_fin (startState 1 0) (q := 0) hw rfl le_rfl
  obtain ⟨f2, h2, -, hl2, -⟩ := draw_total samplePlatform (sampleEnv 1000000000 (F32.fin 1))
    { startState 1 0 with g_delay := F32.fin (max 0 (rnd (frameBudget - 0))) } (1360 * 768) hmul
    (by rw [hnat]; exact le_of_eq (frameLength_startState 1 0).symm)
  -- second tick
  have h3 := timer_of_fin
    { startState 1 0 with
        g_frame := f2, g_frameRate := F32.fin 1, g_frameTime := 1000000000,
        g_delay := F32.fin (max 0 (rnd (frameBudget - 0))),
        g_framesPerSecond := F32.div (F32.fin 1)
          (F32.add (F32.fin (max 0 (rnd (frameBudget - 0)))) (F32.fin 1)) }
    (q := 1) hw rfl (by norm_num)
  have hz : max 0 (rnd (frameBudget - 1)) = 0 :=
    max_eq_left (rnd_nonpos (by unfold frameBudget; norm_num))
  rw [hz] at h3
  obtain ⟨f4, h4, -, -, -⟩ := draw_total samplePlatform (sampleEnv 1007812500 (F32.fin (1 / 128)))
    { startState 1 0 with
        g_frame := f2, g_frameRate := F32.fin 1, g_frameTime := 1000000000,
        g_delay := F32.fin 0,
        g_framesPerSecond := F32.div (F32.fin 1)
          (F32.add (F32.fin (max 0 (rnd (frameBudget - 0)))) (F32.fin 1)) }
    (1360 * 768) hmul
    (by
      rw [hnat]
      exact le_of_eq ((hl2 _ rfl).trans (frameLength_startState 1 0)).symm)
  have hrun : ∃ effs, run samplePlatform (startState 1 0)
      [.timer, .draw (sampleEnv 1000000000 (F32.fin 1)),
       .timer, .draw (sampleEnv 1007812500 (F32.fin (1 / 128)))]
      = .ok ({ startState 1 0 with
          g_frame := f4, g_frameRate := F32.fin (1 / 128), g_frameTime := 1007812500,
          g_delay := F32.fin 0,
          g_framesPerSecond :=
            F32.div (F32.fin 1) (F32.add (F32.fin 0) (F32.fin (1 / 128))) }, effs) := by
    exact ⟨_, run_cons_ok samplePlatform (e := .timer) h1
      (run_cons_ok samplePlatform (e := .draw (sampleEnv 1000000000 (F32.fin 1))) h2
        (run_cons_ok samplePlatform (e := .timer) h3
          (run_cons_ok samplePlatform (e := .draw (sampleEnv 1007812500 (F32.fin (1 / 128)))) h4
            rfl)))⟩
  obtain ⟨effs, hrun⟩ := hrun
  refine ⟨_, effs, hrun, ?_, ?_, ?_, ?_, ?_⟩
  · rfl
  · exact fps_of_zero_delay
  · exact fps_of_same_tick_delay
  · show F32.div (F32.fin 1) (F32.add (F32.fin 0) (F32.fin (1 / 128))) ≠
      F32.div (F32.fin 1) (F32.add (frameDelay (F32.fin (1 / 128))) (F32.fin (1 / 128)))
    rw [fps_of_zero_delay, fps_of_same_tick_delay]
    intro h
    have := F32.fin.inj h
    norm_num at this
  · show F32.div (F32.fin 1) (F32.add (F32.fin 0) (F32.fin (1 / 128))) ≠ _
    rw [fps_of_zero_delay]
    intro h
    have := F32.fin.inj h
    norm_num at this

/-- C4 as the code has it.  On a tick, `timer()` stores the delay
`max(0, 1/FPS - d₀)` computed from the duration `d₀` of the previous frame, and
the `draw()` that follows measures the duration `d` of the current frame and
reports `1 / (delay + d)` with that stored delay. -/
theorem effective_fps (p : Platform) (env : DrawEnv) (s : State) (q : ℚ) (n : ℤ)
    (hw : s.g_window ≠ 0) (hr : s.g_frameRate = F32.fin q) (hq : 0 ≤ q)
    (hn : imul s.g_width s.g_height = .ok n) (hlen : n.toNat ≤ frameLength s) :
    ∃ (s1 s2 : State) (effs1 effs2 : List Effect),
      timer s = .ok (s1, effs1) ∧ draw p env s1 = .ok (s2, effs2) ∧
      s1.g_delay = frameDelay (F32.fin q) ∧
      s2.g_frameRate = env.elapsed ∧
      s2.g_framesPerSecond = F32.div (F32.fin 1) (F32.add s1.g_delay s2.g_frameRate) ∧
      s2.g_framesPerSecond
        = F32.div (F32.fin 1) (F32.add (frameDelay (F32.fin q)) env.elapsed) ∧
      effs2.getLast? = some (.print (.fps s2.g_framesPerSecond)) := by
  have ht := timer_of_fin s hw hr hq
  obtain ⟨frame, hd, -, -, -⟩ := draw_total p env
    { s with g_delay := F32.fin (max 0 (rnd (frameBudget - q))) } n hn hlen
  refine ⟨_, _, _, _, ht, hd, (frameDelay_fin hq).symm, rfl, rfl, ?_, rfl⟩
  rw [frameDelay_fin hq]

/-- C4 as the code has it, at a concrete tick: after a one-second frame the
delay in force is `0`, and a frame of 1/128 s is reported as 128 frames per
second. -/
theorem effective_fps_witness :
    ∃ (s1 s2 : State) (effs1 effs2 : List Effect),
      timer { startState 1 0 with g_frameRate := F32.fin 1 } = .ok (s1, effs1) ∧
      draw samplePlatform (sampleEnv 1007812500 (F32.fin (1 / 128))) s1 = .ok (s2, effs2) ∧
      s2.g_framesPerSecond = F32.fin 128 := by
  have hw : ({ startState 1 0 with g_frameRate := F32.fin 1 } : State).g_window ≠ 0 := by
    show (1 : ℤ) ≠ 0
    norm_num
  obtain ⟨s1, s2, effs1, effs2, h1, h2, -, -, -, h6, -⟩ :=
    effective_fps samplePlatform (sampleEnv 1007812500 (F32.fin (1 / 128)))
      { startState 1 0 with g_frameRate := F32.fin 1 } 1 (1360 * 768) hw rfl (by norm_num)
      (imul_ok (a := 1360) (b := 768) (by norm_num) (by norm_num))
      (le_of_eq (frameLength_startState 1 0).symm)
  refine ⟨s1, s2, effs1, effs2, h1, h2, ?_⟩
  rw [h6, frameDelay_eq_zero (by unfold frameBudget; norm_num)]
  exact fps_of_zero_delay

/-- Postcondition of `draw()` where it is defined.  When the `int` product
`g_width * g_height` does not exceed the length of the frame, `draw()`
completes, and afterwards every pixel at an index `i < g_width * g_height` is
the one the second pass wrote, a value fixed by the generator outputs alone:
alpha exactly `1.0`, each of R, G, B a generator output divided by `RAND_MAX`
in `float` arithmetic, a finite value in `[0, 1]`; in particular it is not the
clear colour. -/
theorem render_postcondition (p : Platform) (env : DrawEnv) (s : State) (n : ℤ)
    (hm0 : 0 < p.RAND_MAX) (hm1 : p.RAND_MAX < (2 : ℤ) ^ (31 : ℕ))
    (hrand : ∀ k, 0 ≤ env.rand k ∧ env.rand k ≤ p.RAND_MAX)
    (hn : imul s.g_width s.g_height = .ok n) (hlen : n.toNat ≤ frameLength s) :
    ∃ (s1 : State) (effs : List Effect),
      draw p env s = .ok (s1, effs) ∧
      n = s.g_width * s.g_height ∧ s1.g_width = s.g_width ∧ s1.g_height = s.g_height ∧
      effs.head? = some (.drawPixels s.g_width s.g_height s1.g_frame) ∧
      ∀ i : ℕ, (i : ℤ) < s.g_width * s.g_height →
        ∃ px : Vec4, pixelAt s1 i = some px ∧
          px = noise p env i ∧
          px.w = F32.fin 1 ∧
          (∃ k, px.x = F32.div (F32.ofInt (env.rand k)) (F32.ofInt p.RAND_MAX)) ∧
          (∃ k, px.y = F32.div (F32.ofInt (env.rand k)) (F32.ofInt p.RAND_MAX)) ∧
          (∃ k, px.z = F32.div (F32.ofInt (env.rand k)) (F32.ofInt p.RAND_MAX)) ∧
          (∃ r g b : ℚ, px.x = F32.fin r ∧ px.y = F32.fin g ∧ px.z = F32.fin b ∧
            0 ≤ r ∧ r ≤ 1 ∧ 0 ≤ g ∧ g ≤ 1 ∧ 0 ≤ b ∧ b ≤ 1) ∧
          px ≠ clearColour := by
  obtain ⟨frame, hd, hpx, -, -⟩ := draw_total p env s n hn hlen
  have hprod := imul_eq_ok hn
  refine ⟨_, _, hd, hprod, rfl, rfl, rfl, ?_⟩
  intro i hi
  have hi2 : i < n.toNat := by
    rw [hprod]
    omega
  have hcomp : ∀ k, ∃ v : ℚ,
      F32.div (F32.ofInt (env.rand k)) (F32.ofInt p.RAND_MAX) = F32.fin v ∧ 0 ≤ v ∧ v ≤ 1 :=
    fun k => noise_component _ _ (hrand k).1 (hrand k).2 hm0 hm1
  obtain ⟨r, hr, hr0, hr1⟩ := hcomp (3 * i + (env.argOrder 0).val)
  obtain ⟨g, hg, hg0, hg1⟩ := hcomp (3 * i + (env.argOrder 1).val)
  obtain ⟨b, hb, hb0, hb1⟩ := hcomp (3 * i + (env.argOrder 2).val)
  refine ⟨noise p env i, ?_, rfl, rfl, ⟨_, rfl⟩, ⟨_, rfl⟩, ⟨_, rfl⟩,
    ⟨r, g, b, hr, hg, hb, hr0, hr1, hg0, hg1, hb0, hb1⟩, ?_⟩
  · have := hpx i hi2
    unfold pixelAt
    cases frame with
    | none => exact Option.noConfusion this
    | some buf => exact this
  · intro h
    have hw : (noise p env i).w = clearColour.w := by rw [h]
    have h2 : (1 : ℚ) = 0 := F32.fin.inj hw
    norm_num at h2

/-- The postcondition of `draw()` at a concrete state: the first `draw()` after
start-up, with a generator that returns `0` throughout, leaves alpha `1.0` in
pixel 0. -/
theorem render_postcondition_at_start :
    imul (startState 1 0).g_width (startState 1 0).g_height = .ok 1044480 ∧
    (1044480 : ℤ).toNat ≤ frameLength (startState 1 0) ∧
    ∃ (s1 : State) (effs : List Effect),
      draw samplePlatform (sampleEnv 1000000000 (F32.fin 1)) (startState 1 0) = .ok (s1, effs) ∧
      ∃ px : Vec4, pixelAt s1 0 = some px ∧ px.w = F32.fin 1 ∧ px ≠ clearColour := by
  have hn : imul (startState 1 0).g_width (startState 1 0).g_height = .ok 1044480 :=
    imul_ok (a := 1360) (b := 768) (by norm_num) (by norm_num)
  have hlen : (1044480 : ℤ).toNat ≤ frameLength (startState 1 0) :=
    le_of_eq (frameLength_startState 1 0).symm
  obtain ⟨s1, effs, h1, -, -, -, -, h2⟩ :=
    render_postcondition samplePlatform (sampleEnv 1000000000 (F32.fin 1)) (startState 1 0)
      1044480 (by decide) (by decide) (fun _ => ⟨le_refl _, show (0 : ℤ) ≤ 32767 by decide⟩)
      hn hlen
  obtain ⟨px, h3, -, h4, -, -, -, -, h5⟩ := h2 0 (by decide)
  exact ⟨hn, hlen, s1, effs, h1, px, h3, h4, h5⟩

/-- C5 (the code departs from the claim).  With width 1361 and height 768,
reached by start-up and `resize(1361, 768)`, `draw()` has no post-state: the
frame still holds the 1,044,480 pixels of `initialize()`, index `1044480` is
below `width * height` and holds no pixel, and the clear pass writes there out
of bounds, so `draw()` does not complete.  For every state whose dimensions
have an `int` product, `draw()` completes exactly when that product does not
exceed the length of the frame. -/
theorem render_step_faults_after_resize (p : Platform) (env : DrawEnv) (win t0 : ℤ) :
    (∃ effs, run p (startState win t0) [.resize 1361 768]
        = .ok ((resize 1361 768 (startState win t0)).1, effs)) ∧
    (resize 1361 768 (startState win t0)).1.g_width = 1361 ∧
    (resize 1361 768 (startState win t0)).1.g_height = 768 ∧
    (1044480 : ℤ) < (resize 1361 768 (startState win t0)).1.g_width
        * (resize 1361 768 (startState win t0)).1.g_height ∧
    pixelAt (resize 1361 768 (startState win t0)).1 1044480 = none ∧
    draw p env (resize 1361 768 (startState win t0)).1 = .error .outOfBounds ∧
    (¬ ∃ s1 effs, draw p env (resize 1361 768 (startState win t0)).1 = .ok (s1, effs)) ∧
    ∀ (s : State) (n : ℤ), imul s.g_width s.g_height = .ok n →
      ((∃ s1 effs, draw p env s = .ok (s1, effs)) ↔ n.toNat ≤ frameLength s) := by
  have hfault : draw p env (resize 1361 768 (startState win t0)).1 = .error .outOfBounds := by
    refine draw_fault p env _ (1361 * 768) (List.replicate 1044480 zeroPixel)
      (imul_ok (by simp only [resize]; norm_num) (by simp only [resize]; norm_num)) rfl ?_
    rw [List.length_replicate]
    norm_num
  refine ⟨⟨_, rfl⟩, rfl, rfl, by simp only [resize]; norm_num, ?_, hfault, ?_, ?_⟩
  · show (List.replicate 1044480 zeroPixel)[1044480]? = none
    rw [List.getElem?_eq_none_iff, List.length_replicate]
  · rintro ⟨s1, effs, h⟩
    rw [hfault] at h
    exact Except.noConfusion h
  · intro s n hn
    constructor
    · rintro ⟨s1, effs, h⟩
      by_contra hlt
      have hlt2 : frameLength s < n.toNat := Nat.lt_of_not_le hlt
      cases hf : s.g_frame with
      | none =>
        rw [draw_fault_null p env s n hn hf (Nat.lt_of_le_of_lt (Nat.zero_le _) hlt2)] at h
        exact Except.noConfusion h
      | some buf =>
        have hb : buf.length < n.toNat := by
          unfold frameLength at hlt2
          rw [hf] at hlt2
          exact hlt2
        rw [draw_fault p env s n buf hn hf hb] at h
        exact Except.noConfusion h
    · intro hlen
      obtain ⟨frame, hd, -, -, -⟩ := draw_total p env s n hn hlen
      exact ⟨_, _, hd⟩

/-- C6.  The escape key (code 27) issues exactly one window-close request,
for the current window, and sets the handle to `0`; from then on, whatever
events are delivered, no redraw and no timer is requested, and a timer tick
changes nothing and ends the process with `exit(0)`. -/
theorem quit_scenario (p : Platform) (s : State) (x y : ℤ) (hw : s.g_window ≠ 0) :
    (keyPressed 27 x y s).1 = { s with g_window := 0 } ∧
    (keyPressed 27 x y s).2.filter Effect.isCloseRequest = [.destroyWindow s.g_window] ∧
    timer (keyPressed 27 x y s).1 = .ok ((keyPressed 27 x y s).1, [.exit 0]) ∧
    ∀ (evs : List Event) (t : State) (effs : List Effect),
      run p (keyPressed 27 x y s).1 evs = .ok (t, effs) →
        t.g_window = 0 ∧
        effs.filter Effect.isRedrawRequest = [] ∧
        effs.filter Effect.isTimerRequest = [] ∧
        timer t = .ok (t, [.exit 0]) := by
  have _ := hw
  refine ⟨rfl, rfl, rfl, ?_⟩
  intro evs t effs h
  obtain ⟨h1, h2, h3⟩ := run_closed p evs _ t effs rfl h
  refine ⟨h1, h2, h3, ?_⟩
  unfold timer
  rw [if_neg (not_not.mpr h1)]

/-- C6 at a concrete state: escape pressed right after start-up with window 1,
then a resize, an arrow key and a timer tick. -/
theorem quit_scenario_witness :
    (startState 1 0).g_window ≠ 0 ∧
    (keyPressed 27 0 0 (startState 1 0)).2.filter Effect.isCloseRequest = [.destroyWindow 1] ∧
    ∃ t, run samplePlatform (keyPressed 27 0 0 (startState 1 0)).1
        [.resize 640 480, .special 100 0 0, .timer]
      = .ok (t, [.viewport 0 0 640 480, .exit 0]) ∧ t.g_window = 0 := by
  have hw : (startState 1 0).g_window ≠ 0 := by
    show (1 : ℤ) ≠ 0
    norm_num
  have h := quit_scenario samplePlatform (startState 1 0) 0 0 hw
  refine ⟨hw, h.2.1, _, rfl, ?_⟩
  exact (h.2.2.2 [.resize 640 480, .special 100 0 0, .timer] _ _ rfl).1

/-- C7.  `initialize()` at the initial dimensions 1360 x 768 allocates a frame
of 1,044,480 pixels; in general, whenever the product of the current
dimensions is a non-negative `int`, `initialize()` completes and the frame it
allocates has `g_width * g_height` elements, and it never completes with a
frame of any other length. -/
theorem initial_allocation :
    (∀ win t0 : ℤ, ∃ s effs,
      initializeGL { initialState t0 with g_window := win } = .ok (s, effs) ∧
      s.g_width = 1360 ∧ s.g_height = 768 ∧ frameLength s = 1044480) ∧
    (∀ s : State, 0 ≤ s.g_width * s.g_height → s.g_width * s.g_height < (2 : ℤ) ^ (31 : ℕ) →
      ∃ s1 effs, initializeGL s = .ok (s1, effs) ∧
        (frameLength s1 : ℤ) = s.g_width * s.g_height ∧
        s1.g_width = s.g_width ∧ s1.g_height = s.g_height) ∧
    (∀ (s s1 : State) (effs : List Effect), initializeGL s = .ok (s1, effs) →
      (frameLength s1 : ℤ) = s1.g_width * s1.g_height) := by
  refine ⟨fun win t0 => ?_, fun s h1 h2 => ?_, fun s s1 effs h => ?_⟩
  · refine ⟨_, _, initializeGL_ok _ (by simp only [initialState]; norm_num)
      (by simp only [initialState]; norm_num), rfl, rfl, ?_⟩
    exact List.length_replicate _ _
  · refine ⟨_, _, initializeGL_ok s h1 h2, ?_, rfl, rfl⟩
    show ((List.replicate (s.g_width * s.g_height).toNat zeroPixel).length : ℤ) = _
    rw [List.length_replicate, Int.toNat_of_nonneg h1]
  · by_cases h1 : -(2 : ℤ) ^ (31 : ℕ) ≤ s.g_width * s.g_height
        ∧ s.g_width * s.g_height < (2 : ℤ) ^ (31 : ℕ)
    · by_cases h2 : s.g_width * s.g_height < 0
      · unfold initializeGL imul makeFrame at h
        rw [if_pos h1] at h
        simp only [bind, Except.bind, pure, Except.pure] at h
        rw [if_pos h2] at h
        exact Except.noConfusion h
      · rw [initializeGL_ok s (not_lt.mp h2) h1.2] at h
        have hs := (Prod.mk.inj (Except.ok.inj h)).1
        rw [← hs]
        show ((List.replicate (s.g_width * s.g_height).toNat zeroPixel).length : ℤ) = _
        rw [List.length_replicate, Int.toNat_of_nonneg (not_lt.mp h2)]
    · unfold initializeGL imul at h
      rw [if_neg h1] at h
      exact Except.noConfusion h

/-- C8.  A standard key other than 27 leaves the state unchanged and only logs
the key as unhandled; a special key leaves the state unchanged and logs
nothing when it is `GLUT_KEY_LEFT` or `GLUT_KEY_RIGHT`, and logs the key as
unhandled otherwise; a close or exit request is issued for key 27 and for no
other key. -/
theorem key_dispatch (p : Platform) (s : State) (key : ℕ) (special : ℤ) (x y : ℤ) :
    (key ≠ 27 → keyPressed key x y s = (s, [.print (.unhandledKey key)])) ∧
    (specialKeyPressed p special x y s).1 = s ∧
    (special = p.GLUT_KEY_LEFT ∨ special = p.GLUT_KEY_RIGHT →
      (specialKeyPressed p special x y s).2 = []) ∧
    (¬ (special = p.GLUT_KEY_LEFT ∨ special = p.GLUT_KEY_RIGHT) →
      (specialKeyPressed p special x y s).2 = [.print (.unhandledSpecialKey special)]) ∧
    ((specialKeyPressed p special x y s).2 = [] ↔
      (special = p.GLUT_KEY_LEFT ∨ special = p.GLUT_KEY_RIGHT)) ∧
    (specialKeyPressed p special x y s).2.filter
      (fun e => e.isCloseRequest || e.isExitRequest) = [] ∧
    ((keyPressed key x y s).2.filter (fun e => e.isCloseRequest || e.isExitRequest) ≠ []
      ↔ key = 27) := by
  refine ⟨keyPressed_other x y s, ?_,
    fun h => by rw [specialKeyPressed_arrow p x y s h],
    fun h => by rw [specialKeyPressed_other p x y s h], ?_, ?_, ?_⟩
  · by_cases h : special = p.GLUT_KEY_LEFT ∨ special = p.GLUT_KEY_RIGHT
    · rw [specialKeyPressed_arrow p x y s h]
    · rw [specialKeyPressed_other p x y s h]
  · by_cases h : special = p.GLUT_KEY_LEFT ∨ special = p.GLUT_KEY_RIGHT
    · rw [specialKeyPressed_arrow p x y s h]
      exact ⟨fun _ => h, fun _ => rfl⟩
    · rw [specialKeyPressed_other p x y s h]
      exact ⟨fun h2 => absurd h2 (List.cons_ne_nil _ _), fun h2 => absurd h2 h⟩
  · by_cases h : special = p.GLUT_KEY_LEFT ∨ special = p.GLUT_KEY_RIGHT
    · rw [specialKeyPressed_arrow p x y s h]
      rfl
    · rw [specialKeyPressed_other p x y s h]
      rfl
  · by_cases h : key = 27
    · subst h
      exact ⟨fun _ => rfl, fun _ => List.cons_ne_nil _ _⟩
    · rw [keyPressed_other x y s h]
      exact ⟨fun h2 => absurd rfl h2, fun h2 => absurd h2 h⟩

/-- C9.  `resize(w, h)` is idempotent: a second call with the same arguments
returns the state and the viewport request of the first, so the dimensions and
the length of the frame are those after the first call. -/
theorem resize_idempotent (s : State) (w h : ℤ) :
    resize w h (resize w h s).1 = resize w h s ∧
    frameLength (resize w h (resize w h s).1).1 = frameLength (resize w h s).1 ∧
    (resize w h (resize w h s).1).1.g_width = w ∧
    (resize w h (resize w h s).1).1.g_height = h :=
  ⟨rfl, rfl, rfl, rfl⟩

/-- C10.  For a finite frame duration `d ≥ 0`, `timer()` completes and hands
the scheduler the truncation of `1000.f * max(0.f, 1.f / FPS - d)`, a whole
number of milliseconds between 0 and 16; it is 16 at `d = 0`, the value
`1000 / FPS` that `main` schedules first, and 0 whenever the duration is a
`float` of at least `1/60`. -/
theorem timer_wait_bounded (s : State) (q : ℚ) (hw : s.g_window ≠ 0)
    (hr : s.g_frameRate = F32.fin q) (hq : 0 ≤ q) :
    ∃ millis : ℕ,
      timer s = .ok ({ s with g_delay := frameDelay (F32.fin q) },
        [.postRedisplay, .timerFunc millis]) ∧
      F32.toUInt (F32.mul (F32.fin 1000) (frameDelay (F32.fin q))) = some millis ∧
      (millis : ℤ) = ⌊rnd (1000 * max 0 (rnd (rnd (1 / 60) - q)))⌋ ∧
      millis ≤ 16 ∧
      (q = 0 → millis = 16) ∧
      (F32.Representable q → 1 / 60 ≤ q → millis = 0) ∧
      1000 / FPS = 16 ∧
      ∀ win t0 : ℤ, ∃ s0 effs, main win (initialState t0) = .ok (s0, effs) ∧
        effs.filter Effect.isTimerRequest = [.timerFunc 16] := by
  obtain ⟨_, _, h3, h4⟩ := delay_bounds hq
  have ht := timer_of_fin s hw hr hq
  have hp : (0 : ℚ) < (2 : ℚ) ^ (128 : ℕ) := by positivity
  have hm : F32.mul (F32.fin 1000) (F32.fin (max 0 (rnd (frameBudget - q))))
      = F32.fin (rnd (1000 * max 0 (rnd (frameBudget - q)))) := by
    rw [F32.mul_fin]
    exact F32.ofRat_of_bounds (lt_of_lt_of_le (neg_lt_zero.mpr hp) h3)
      (lt_of_le_of_lt h4 (by norm_num))
  refine ⟨⌊rnd (1000 * max 0 (rnd (frameBudget - q)))⌋.toNat, ?_, ?_, ?_, ?_, ?_, ?_, rfl, ?_⟩
  · rw [ht, frameDelay_fin hq]
  · rw [frameDelay_fin hq, hm, F32.toUInt_fin,
      if_pos ⟨by linarith, lt_of_le_of_lt h4 (by norm_num)⟩]
  · rw [rnd_one_div_sixty, Int.toNat_of_nonneg (Int.floor_nonneg.mpr h3)]
  · rw [Int.toNat_le]
    have : ⌊rnd (1000 * max 0 (rnd (frameBudget - q)))⌋ < 17 := by
      rw [Int.floor_lt]
      exact lt_of_le_of_lt h4 (by norm_num)
    omega
  · intro h0
    rw [h0, sub_zero, rnd_frameBudget, max_eq_right (by unfold frameBudget; norm_num),
      rnd_thousand_frameBudget]
    have : ⌊(4369067 / 262144 : ℚ)⌋ = 16 := by
      rw [Int.floor_eq_iff]
      constructor <;> norm_num
    rw [this]
    rfl
  · intro hrep hge
    rw [max_eq_left (rnd_nonpos (by linarith [frameBudget_le_of_representable hrep hge])),
      mul_zero, rnd_zero]
    simp
  · intro win t0
    exact ⟨_, _, main_ok win t0, rfl⟩

/-- C10 at a concrete state: the first tick after start-up schedules the next
one 16 milliseconds later. -/
theorem timer_wait_bounded_witness :
    (startState 1 0).g_window ≠ 0 ∧ (startState 1 0).g_frameRate = F32.fin 0 ∧
    ∃ s1, timer (startState 1 0) = .ok (s1, [.postRedisplay, .timerFunc 16]) := by
  have hw : (startState 1 0).g_window ≠ 0 := by
    show (1 : ℤ) ≠ 0
    norm_num
  obtain ⟨millis, h1, _, _, _, h5, _⟩ := timer_wait_bounded (startState 1 0) 0 hw rfl le_rfl
  exact ⟨hw, rfl, _, by rw [h1, h5 rfl]⟩

end OpenGLProject1
